import Mathlib

/-!
Shallow embedding of the gridwell client-side state core
(src/src/types.ts, src/src/App.tsx, src/src/components/DynamicTable.tsx,
src/src/components/Sidebar.tsx, LayerBox).

JavaScript objects used as string-keyed maps (a row's `cells`) are embedded
as insertion-ordered association lists with unique keys; numbers that the
claims treat as opaque data (widths, heights, coordinates) are embedded as
`Int`.  `crypto.randomUUID()` and the `Date.now()`-derived synthetic ids are
abstracted as explicit id parameters / id supplies passed to the operations.
-/

namespace Gridwell

/-- Cell of a table: `CellData` of src/src/types.ts. -/
structure CellData where
  id : String
  value : String
deriving DecidableEq, Repr

/-- Row of a table: `RowData` of src/src/types.ts.  The JS object
`cells : { [columnId: string]: CellData }` is embedded as an
insertion-ordered association list (JS objects hold each key once). -/
structure RowData where
  id : String
  cells : List (String × CellData)
  height : Option Int
deriving DecidableEq, Repr

/-- Column of a table: `ColumnData` of src/src/types.ts. -/
structure ColumnData where
  id : String
  title : String
  width : Option Int
deriving DecidableEq, Repr

/-- A table: `TableData` of src/src/types.ts. -/
structure TableData where
  id : String
  title : String
  columns : List ColumnData
  rows : List RowData
deriving DecidableEq, Repr

/-- A layer: `Layer` of src/src/types.ts. -/
structure Layer where
  id : String
  title : String
  description : String
  x : Option Int
  y : Option Int
  width : Int
  height : Int
  tables : List TableData
deriving DecidableEq, Repr

/-- A category: `Category` of src/src/types.ts. -/
structure Category where
  id : String
  title : String
  layers : List Layer
deriving DecidableEq, Repr

/-- A sidebar item: `SidebarItem` of src/src/types.ts. -/
structure SidebarItem where
  id : String
  title : String
  categories : List Category
deriving DecidableEq, Repr

/-- The whole Project: `AppState` of src/src/types.ts. -/
structure AppState where
  projectTitle : String
  sidebarItems : List SidebarItem
  activeSidebarItemId : Option String
  activeCategoryId : Option String
deriving DecidableEq, Repr

/-! ### JS object-as-map primitives

`setKey m k c` is the JS computed-property spread `{...m, [k]: c}`:
if the key is present its entry is overwritten in place, otherwise the
new entry is appended.  `delKey m k` is `delete m[k]` on a copy;
`lookupKey m k` is `m[k]` (`none` for JS `undefined`). -/

def setKey (m : List (String × CellData)) (k : String) (c : CellData) :
    List (String × CellData) :=
  if m.any (fun e => e.1 == k) then
    m.map (fun e => if e.1 == k then (k, c) else e)
  else
    m ++ [(k, c)]

def delKey (m : List (String × CellData)) (k : String) : List (String × CellData) :=
  m.filter (fun e => e.1 != k)

def lookupKey (m : List (String × CellData)) (k : String) : Option CellData :=
  (m.find? (fun e => e.1 == k)).map (fun e => e.2)

/-! ### Table-level operations (src/src/components/DynamicTable.tsx)

The `Date.now()`-derived fresh ids (`c${Date.now()}`, `r${Date.now()}`)
are passed in as explicit parameters. -/

/-- `addColumn` (DynamicTable.tsx): appends a column titled with the new
column count and inserts into every row a fresh empty cell whose id is
`${newColId}${row.id}`. -/
def addColumnOp (newColId : String) (t : TableData) : TableData :=
  { t with
    columns := t.columns ++ [⟨newColId, toString (t.columns.length + 1), some 100⟩],
    rows := t.rows.map (fun r =>
      { r with cells := setKey r.cells newColId ⟨newColId ++ r.id, ""⟩ }) }

/-- `addRow` (DynamicTable.tsx): appends a row whose cells object is built
by assigning, for each column in order, a fresh empty cell with id
`${col.id}${newRowId}`. -/
def addRowOp (newRowId : String) (t : TableData) : TableData :=
  { t with
    rows := t.rows ++
      [⟨newRowId,
        t.columns.foldl (fun m col => setKey m col.id ⟨col.id ++ newRowId, ""⟩) [],
        some 40⟩] }

/-- `removeColumn` (DynamicTable.tsx): no-op at one column; otherwise
filters the column out and deletes its cell from every row. -/
def removeColumnOp (colId : String) (t : TableData) : TableData :=
  if t.columns.length ≤ 1 then t
  else
    { t with
      columns := t.columns.filter (fun c => c.id != colId),
      rows := t.rows.map (fun r => { r with cells := delKey r.cells colId }) }

/-- `removeRow` (DynamicTable.tsx): no-op at one row; otherwise filters
the row out. -/
def removeRowOp (rowId : String) (t : TableData) : TableData :=
  if t.rows.length ≤ 1 then t
  else { t with rows := t.rows.filter (fun r => r.id != rowId) }

/-- `saveEdit` (DynamicTable.tsx): writes the edited value into the cell
`[editingCell.colId]` of the row `editingCell.rowId`, keeping the cell id
(`{ ...row.cells[colId], value }`).  When the key is absent JS spreads
`undefined` and produces an object without an id field; that branch is
represented with an empty id — it is outside the component's reach, since
cells are only ever edited for currently rendered columns. -/
def updateCellOp (rowId colId v : String) (t : TableData) : TableData :=
  { t with
    rows := t.rows.map (fun r =>
      if r.id = rowId then
        { r with
          cells := setKey r.cells colId
            ⟨(match lookupKey r.cells colId with
              | some c => c.id
              | none => ""), v⟩ }
      else r) }

/-- The table operations of the claim: add row, remove row, add column,
remove column, update cell value.  Fresh ids are carried by the
constructors. -/
inductive TableOp where
  | addCol (newColId : String)
  | addRow (newRowId : String)
  | rmCol (colId : String)
  | rmRow (rowId : String)
  | setCell (rowId colId v : String)
deriving DecidableEq, Repr

def applyTableOp (t : TableData) : TableOp → TableData
  | .addCol newColId => addColumnOp newColId t
  | .addRow newRowId => addRowOp newRowId t
  | .rmCol colId => removeColumnOp colId t
  | .rmRow rowId => removeRowOp rowId t
  | .setCell rowId colId v => updateCellOp rowId colId v t

def applyTableOps (t : TableData) (ops : List TableOp) : TableData :=
  ops.foldl applyTableOp t

/-- The ids of the columns currently on the table. -/
def colIds (t : TableData) : List String := t.columns.map (fun c => c.id)

/-- Number of entries of the cells object under key `k`. -/
def countKey (m : List (String × CellData)) (k : String) : Nat :=
  (m.filter (fun e => e.1 == k)).length

/-- A row's cell mapping has exactly one Cell entry for every column id in
`cids`, no more, no fewer. -/
def rowSynced (cids : List String) (m : List (String × CellData)) : Bool :=
  cids.all (fun k => countKey m k == 1) && m.all (fun e => cids.contains e.1)

/-- Every row of the table is in sync with the table's column set. -/
def tableSynced (t : TableData) : Bool :=
  t.rows.all (fun r => rowSynced (colIds t) r.cells)

/-- An `updateCell` is only issued by the component for a currently
rendered cell, i.e. for a column that exists on the table; the structural
operations are unconstrained. -/
def opValid (t : TableData) : TableOp → Bool
  | .setCell _ colId _ => (colIds t).contains colId
  | _ => true

def opsValid (t : TableData) : List TableOp → Bool
  | [] => true
  | op :: rest => opValid t op && opsValid (applyTableOp t op) rest

/-! ### Tree Store operations (src/src/App.tsx, src/src/components/Sidebar.tsx) -/

/-- `handleUpdateProjectTitle`: unconditionally replaces the title (the
empty-title guard lives in the sidebar's `handleTitleSave`, see
`titleSave`). -/
def setProjectTitleUpd (t : String) (s : AppState) : AppState :=
  { s with projectTitle := t }

/-- JS `String.prototype.trim`: strip leading and trailing whitespace
(embedded as an executable char-list function). -/
def trimChars (cs : List Char) : List Char :=
  ((cs.dropWhile Char.isWhitespace).reverse.dropWhile Char.isWhitespace).reverse

def trimJS (s : String) : String := String.mk (trimChars s.data)

/-- `handleTitleSave` (Sidebar.tsx) composed with `onUpdateTitle`: when the
edited title is non-empty after trimming the raw (untrimmed) title is
saved, otherwise the edit is discarded and the previous title kept. -/
def titleSave (tempTitle : String) (s : AppState) : AppState :=
  if trimJS tempTitle ≠ "" then setProjectTitleUpd tempTitle s else s

/-- `handleAddSidebarItem`; `crypto.randomUUID()` is passed as `newId`. -/
def addItemUpd (newId : String) (s : AppState) : AppState :=
  { s with
    sidebarItems := s.sidebarItems ++ [⟨newId, "New Item", []⟩],
    activeSidebarItemId := some newId }

/-- `handleRemoveSidebarItem`: filters the item out and clears the active
item reference when it pointed at the removed item; the active category
reference is not touched. -/
def removeItemUpd (id : String) (s : AppState) : AppState :=
  { s with
    sidebarItems := s.sidebarItems.filter (fun item => item.id != id),
    activeSidebarItemId :=
      if s.activeSidebarItemId = some id then none else s.activeSidebarItemId }

/-- `handleUpdateSidebarItem`. -/
def renameItemUpd (id t : String) (s : AppState) : AppState :=
  { s with
    sidebarItems := s.sidebarItems.map (fun item =>
      if item.id = id then { item with title := t } else item) }

/-- JS `arr.splice(i, 1)` for a non-negative index: the removed element
(`none` standing for JS `undefined` when the index is past the end) and
the remaining array. -/
def spliceRemove (xs : List α) (i : Nat) : Option α × List α :=
  match xs.get? i with
  | none => (none, xs)
  | some a => (some a, xs.eraseIdx i)

/-- JS `arr.splice(i, 0, x)`: inserts `x` at `i`, clamped to the array
length. -/
def spliceInsert (xs : List α) (i : Nat) (a : α) : List α :=
  xs.insertIdx (min i xs.length) a

/-- `handleReorderSidebarItems`, faithful at the items level:
`const [moved] = items.splice(fromIndex, 1); items.splice(toIndex, 0, moved)`.
When `fromIndex` is out of bounds JS inserts `undefined` into the items
array; the embedding records that value as `none` and real items as
`some`. -/
def reorderJS (xs : List α) (i j : Nat) : List (Option α) :=
  let r := spliceRemove xs i
  spliceInsert (r.2.map some) j r.1

/-- `handleReorderSidebarItems` at the `AppState` level: only the items
list is replaced.  For an in-bounds `fromIndex`, `reorderJS` returns a
list of `some`s and `filterMap id` recovers it exactly; for an
out-of-bounds `fromIndex` the JS array holds an `undefined` that no
`AppState` value can represent, and `reorderJS` is the authoritative
embedding of that case. -/
def reorderItemsUpd (i j : Nat) (s : AppState) : AppState :=
  { s with sidebarItems := (reorderJS s.sidebarItems i j).filterMap id }

/-- `handleAddCategory` updater (its `!activeSidebarItemId` guard sits on
the history handler `handleAddCategoryH`). -/
def addCategoryUpd (newId name : String) (s : AppState) : AppState :=
  { s with
    sidebarItems := s.sidebarItems.map (fun item =>
      if some item.id = s.activeSidebarItemId then
        { item with categories := item.categories ++ [⟨newId, name, []⟩] }
      else item),
    activeCategoryId := some newId }

/-- `handleUpdateCategory`: per item, rename the first category found with
the given id (`findIndex`). -/
def renameCategoryUpd (categoryId t : String) (s : AppState) : AppState :=
  { s with
    sidebarItems := s.sidebarItems.map (fun item =>
      match item.categories.findIdx? (fun c => c.id == categoryId) with
      | none => item
      | some idx =>
        { item with
          categories := item.categories.set idx
            { (item.categories.getD idx ⟨"", "", []⟩) with title := t } }) }

/-- `handleDeleteCategory`: filters the category out of every item and
clears the active category when it was the removed one. -/
def deleteCategoryUpd (categoryId : String) (s : AppState) : AppState :=
  { s with
    sidebarItems := s.sidebarItems.map (fun item =>
      { item with categories := item.categories.filter (fun c => c.id != categoryId) }),
    activeCategoryId :=
      if s.activeCategoryId = some categoryId then none else s.activeCategoryId }

/-- `handleAddLayer` updater (guards on the history handler). -/
def addLayerUpd (newId : String) (s : AppState) : AppState :=
  { s with
    sidebarItems := s.sidebarItems.map (fun item =>
      if some item.id = s.activeSidebarItemId then
        { item with categories := item.categories.map (fun cat =>
            if some cat.id = s.activeCategoryId then
              { cat with layers := cat.layers ++
                [⟨newId, "New Layer", "", none, none, 650, 420, []⟩] }
            else cat) }
      else item) }

/-- `Partial<Layer>`: the keys a caller of `updateLayer` may supply;
shallow merge semantics — provided keys overwrite. -/
structure LayerPatch where
  id : Option String := none
  title : Option String := none
  description : Option String := none
  x : Option (Option Int) := none
  y : Option (Option Int) := none
  width : Option Int := none
  height : Option Int := none
  tables : Option (List TableData) := none
deriving DecidableEq, Repr

/-- The spread `{ ...layer, ...updates }`. -/
def applyPatch (l : Layer) (p : LayerPatch) : Layer :=
  { id := p.id.getD l.id
    title := p.title.getD l.title
    description := p.description.getD l.description
    x := p.x.getD l.x
    y := p.y.getD l.y
    width := p.width.getD l.width
    height := p.height.getD l.height
    tables := p.tables.getD l.tables }

/-- `updates` is either a partial value or an updater function of the
previous layer (`typeof updates === 'function'`). -/
def LayerUpdates : Type := LayerPatch ⊕ (Layer → LayerPatch)

def resolveUpdates (u : LayerUpdates) (l : Layer) : LayerPatch :=
  match u with
  | Sum.inl p => p
  | Sum.inr f => f l

/-- `handleUpdateLayer` updater: merges the resolved updates into the
layer with the given id under the currently active item and category. -/
def updateLayerUpd (layerId : String) (u : LayerUpdates) (s : AppState) : AppState :=
  { s with
    sidebarItems := s.sidebarItems.map (fun item =>
      if some item.id = s.activeSidebarItemId then
        { item with categories := item.categories.map (fun cat =>
            if some cat.id = s.activeCategoryId then
              { cat with layers := cat.layers.map (fun l =>
                  if l.id = layerId then applyPatch l (resolveUpdates u l) else l) }
            else cat) }
      else item) }

/-- `handleRemoveLayer` updater. -/
def removeLayerUpd (layerId : String) (s : AppState) : AppState :=
  { s with
    sidebarItems := s.sidebarItems.map (fun item =>
      if some item.id = s.activeSidebarItemId then
        { item with categories := item.categories.map (fun cat =>
            if some cat.id = s.activeCategoryId then
              { cat with layers := cat.layers.filter (fun l => l.id != layerId) }
            else cat) }
      else item) }

/-- Placeholder layer for the (unreachable) out-of-range list accesses of
the embedding. -/
def dfltLayer : Layer := ⟨"", "", "", none, none, 0, 0, []⟩

/-- The clone built by `handleDuplicateLayer`: a fresh id for the layer
(`fresh 0`) and for each of its tables (`fresh (i + 1)` in order), title
suffixed with " (copy)"; all other content — descriptions, and the tables'
titles, columns, rows and cells with their ids — deep-copied unchanged. -/
def mkClone (fresh : Nat → String) (orig : Layer) : Layer :=
  { orig with
    id := fresh 0,
    title := orig.title ++ " (copy)",
    tables := orig.tables.enum.map (fun p => { p.2 with id := fresh (p.1 + 1) }) }

/-- The per-category body of `handleDuplicateLayer`: find the layer
(`findIndex`), no-op when absent, otherwise splice the clone in right
after the original. -/
def dupInCat (fresh : Nat → String) (layerId : String) (cat : Category) : Category :=
  match cat.layers.findIdx? (fun l => l.id == layerId) with
  | none => cat
  | some idx =>
    { cat with
      layers := cat.layers.insertIdx (idx + 1)
        (mkClone fresh (cat.layers.getD idx dfltLayer)) }

/-- `handleDuplicateLayer` updater: inserts the clone right after the
original inside the active item's active category. -/
def duplicateLayerUpd (fresh : Nat → String) (layerId : String) (s : AppState) :
    AppState :=
  { s with
    sidebarItems := s.sidebarItems.map (fun item =>
      if some item.id = s.activeSidebarItemId then
        { item with categories := item.categories.map (fun cat =>
            if some cat.id = s.activeCategoryId then dupInCat fresh layerId cat
            else cat) }
      else item) }

/-- `handleReorderLayer` updater: swaps the layer with its neighbour in
the requested direction (`up = true` for 'up'), no-op at the
boundaries. -/
def reorderLayerUpd (layerId : String) (up : Bool) (s : AppState) : AppState :=
  { s with
    sidebarItems := s.sidebarItems.map (fun item =>
      if some item.id = s.activeSidebarItemId then
        { item with categories := item.categories.map (fun cat =>
            if some cat.id = s.activeCategoryId then
              match cat.layers.findIdx? (fun l => l.id == layerId) with
              | none => cat
              | some idx =>
                let swapIdx : Int := if up then (idx : Int) - 1 else (idx : Int) + 1
                if swapIdx < 0 ∨ (cat.layers.length : Int) ≤ swapIdx then cat
                else
                  { cat with
                    layers := (cat.layers.set idx
                        (cat.layers.getD swapIdx.toNat dfltLayer)).set swapIdx.toNat
                        (cat.layers.getD idx dfltLayer) }
            else cat) }
      else item) }

/-! ### History Manager and Snapshot reconciliation (src/src/App.tsx)

`lastSavedSnapshot` holds `JSON.stringify(appState)`; serialization is
injective and deterministic on this state type, so the baseline is
embedded as the state itself and string comparison as structural
equality. -/

structure Store where
  app : AppState
  undo : List AppState
  redo : List AppState
  lastSaved : AppState
deriving DecidableEq, Repr

def MAX_UNDO_STEPS : Nat := 50

/-- `updateState`: pushes the previous state onto the undo stack keeping
only the most recent `MAX_UNDO_STEPS - 1` older entries
(`[...stack.slice(-MAX_UNDO_STEPS + 1), prev]`), clears the redo stack,
and applies the updater. -/
def updateState (f : AppState → AppState) (h : Store) : Store :=
  { h with
    app := f h.app
    undo := (h.undo.drop (h.undo.length - (MAX_UNDO_STEPS - 1))) ++ [h.app]
    redo := [] }

/-- `handleUndo`: no-op on an empty stack, otherwise pops the most recent
snapshot, pushes the current state onto the redo stack, and makes the
popped snapshot current. -/
def handleUndo (h : Store) : Store :=
  match h.undo.getLast? with
  | none => h
  | some prev =>
    { h with app := prev, undo := h.undo.dropLast, redo := h.redo ++ [h.app] }

/-- `handleRedo`, symmetric to `handleUndo`. -/
def handleRedo (h : Store) : Store :=
  match h.redo.getLast? with
  | none => h
  | some nxt =>
    { h with app := nxt, redo := h.redo.dropLast, undo := h.undo ++ [h.app] }

/-- `handleSaveLayout` effect on the in-memory state: resets the baseline
to the current state (the snapshot-table write is a persistence
side-effect outside the state model). -/
def handleSaveLayout (h : Store) : Store :=
  { h with lastSaved := h.app }

/-- `handleLoadLayout`: replaces the live state with the snapshot's stored
fields, pushes the prior state onto the undo stack (without the cap),
clears the redo stack, and resets the baseline to the loaded state. -/
def handleLoadLayout (snap : AppState) (h : Store) : Store :=
  { app := snap
    undo := h.undo ++ [h.app]
    redo := []
    lastSaved := snap }

/-- `hasUnsavedChanges`: `JSON.stringify(appState) !== lastSavedSnapshot`. -/
def hasUnsavedChanges (h : Store) : Bool := h.app != h.lastSaved

/-! ### History-level handlers: which operations route through
`updateState` (src/src/App.tsx) -/

def handleUpdateProjectTitleH (t : String) (h : Store) : Store :=
  updateState (setProjectTitleUpd t) h

def handleAddSidebarItemH (newId : String) (h : Store) : Store :=
  updateState (addItemUpd newId) h

def handleRemoveSidebarItemH (id : String) (h : Store) : Store :=
  updateState (removeItemUpd id) h

def handleUpdateSidebarItemH (id t : String) (h : Store) : Store :=
  updateState (renameItemUpd id t) h

def handleReorderSidebarItemsH (i j : Nat) (h : Store) : Store :=
  updateState (reorderItemsUpd i j) h

/-- `handleAddCategory` returns before touching any state when no sidebar
item is active. -/
def handleAddCategoryH (newId name : String) (h : Store) : Store :=
  if h.app.activeSidebarItemId.isNone then h
  else updateState (addCategoryUpd newId name) h

def handleUpdateCategoryH (categoryId t : String) (h : Store) : Store :=
  updateState (renameCategoryUpd categoryId t) h

def handleDeleteCategoryH (categoryId : String) (h : Store) : Store :=
  updateState (deleteCategoryUpd categoryId) h

/-- `handleAddLayer` returns before touching any state unless both an item
and a category are active. -/
def handleAddLayerH (newId : String) (h : Store) : Store :=
  if h.app.activeSidebarItemId.isNone || h.app.activeCategoryId.isNone then h
  else updateState (addLayerUpd newId) h

/-- `handleUpdateLayer` calls `setAppState` directly: the update is
applied to the live state while both history stacks and the baseline stay
untouched. -/
def handleUpdateLayerH (layerId : String) (u : LayerUpdates) (h : Store) : Store :=
  { h with app := updateLayerUpd layerId u h.app }

def handleRemoveLayerH (layerId : String) (h : Store) : Store :=
  updateState (removeLayerUpd layerId) h

def handleDuplicateLayerH (fresh : Nat → String) (layerId : String) (h : Store) :
    Store :=
  updateState (duplicateLayerUpd fresh layerId) h

def handleReorderLayerH (layerId : String) (up : Bool) (h : Store) : Store :=
  updateState (reorderLayerUpd layerId up) h

/-! ### Schema migration (src/src/App.tsx, `migrateState`)

The legacy persisted shape: a layer may carry an inline `tableData`
object instead of (or beside) a `tables` array. -/

structure LegacyTableData where
  columns : List ColumnData
  rows : List RowData
deriving DecidableEq, Repr

structure LegacyLayer where
  id : String
  title : String
  description : String
  x : Option Int
  y : Option Int
  width : Int
  height : Int
  tableData : Option LegacyTableData
  tables : Option (List TableData)
deriving DecidableEq, Repr

structure LegacyCategory where
  id : String
  title : String
  layers : List LegacyLayer
deriving DecidableEq, Repr

structure LegacySidebarItem where
  id : String
  title : String
  categories : List LegacyCategory
deriving DecidableEq, Repr

structure LegacyAppState where
  projectTitle : String
  sidebarItems : List LegacySidebarItem
  activeSidebarItemId : Option String
  activeCategoryId : Option String
deriving DecidableEq, Repr

/-- One layer of `migrateState`: `tableData` present and `tables` absent
wraps the table data as a one-element `tables` array with a fresh id and
title "Table 1" (`{ ...tableData, id: crypto.randomUUID(), title: 'Table 1' }`);
no `tables` at all defaults to `[]`; an existing `tables` passes through.
`crypto.randomUUID()` is modelled as `supply` applied at successive
counter values in traversal order. -/
def migrateLayer (supply : Nat → String) (c : Nat) (l : LegacyLayer) : Layer × Nat :=
  match l.tableData, l.tables with
  | some td, none =>
    (⟨l.id, l.title, l.description, l.x, l.y, l.width, l.height,
      [⟨supply c, "Table 1", td.columns, td.rows⟩]⟩, c + 1)
  | _, none => (⟨l.id, l.title, l.description, l.x, l.y, l.width, l.height, []⟩, c)
  | _, some ts => (⟨l.id, l.title, l.description, l.x, l.y, l.width, l.height, ts⟩, c)

def migrateLayers (supply : Nat → String) : Nat → List LegacyLayer → List Layer × Nat
  | c, [] => ([], c)
  | c, l :: ls =>
    let r := migrateLayer supply c l
    let rest := migrateLayers supply r.2 ls
    (r.1 :: rest.1, rest.2)

def migrateCategories (supply : Nat → String) :
    Nat → List LegacyCategory → List Category × Nat
  | c, [] => ([], c)
  | c, cat :: cats =>
    let r := migrateLayers supply c cat.layers
    let rest := migrateCategories supply r.2 cats
    (⟨cat.id, cat.title, r.1⟩ :: rest.1, rest.2)

def migrateItems (supply : Nat → String) :
    Nat → List LegacySidebarItem → List SidebarItem × Nat
  | c, [] => ([], c)
  | c, it :: its =>
    let r := migrateCategories supply c it.categories
    let rest := migrateItems supply r.2 its
    (⟨it.id, it.title, r.1⟩ :: rest.1, rest.2)

/-- `migrateState` (src/src/App.tsx): upgrades a persisted blob with
legacy `tableData` layers to the current `tables[]` schema, preserving
title and active selection. -/
def migrateState (supply : Nat → String) (s : LegacyAppState) : AppState :=
  ⟨s.projectTitle, (migrateItems supply 0 s.sidebarItems).1,
    s.activeSidebarItemId, s.activeCategoryId⟩

/-- The table ids freshly assigned by migration, read off the zipped
legacy/migrated trees: ids of tables sitting in layers whose legacy shape
had `tableData` and no `tables`. -/
def newTableIdsLayers : List LegacyLayer → List Layer → List String
  | ll :: lls, nl :: nls =>
    (match ll.tableData, ll.tables with
     | some _, none => nl.tables.map (fun t => t.id)
     | _, _ => []) ++ newTableIdsLayers lls nls
  | _, _ => []

def newTableIdsCategories : List LegacyCategory → List Category → List String
  | lc :: lcs, nc :: ncs =>
    newTableIdsLayers lc.layers nc.layers ++ newTableIdsCategories lcs ncs
  | _, _ => []

def newTableIdsItems : List LegacySidebarItem → List SidebarItem → List String
  | li :: lis, ni :: nis =>
    newTableIdsCategories li.categories ni.categories ++ newTableIdsItems lis nis
  | _, _ => []

/-- The per-layer outcome C3 describes. -/
def MigLayerRel (supply : Nat → String) (ll : LegacyLayer) (nl : Layer) : Prop :=
  nl.id = ll.id ∧ nl.title = ll.title ∧ nl.description = ll.description ∧
  nl.x = ll.x ∧ nl.y = ll.y ∧ nl.width = ll.width ∧ nl.height = ll.height ∧
  (∀ td, ll.tableData = some td → ll.tables = none →
    ∃ n, nl.tables = [⟨supply n, "Table 1", td.columns, td.rows⟩]) ∧
  (ll.tableData = none → ll.tables = none → nl.tables = []) ∧
  (∀ ts, ll.tables = some ts → nl.tables = ts)

def MigCatRel (supply : Nat → String) (lc : LegacyCategory) (nc : Category) : Prop :=
  nc.id = lc.id ∧ nc.title = lc.title ∧
  List.Forall₂ (MigLayerRel supply) lc.layers nc.layers

def MigItemRel (supply : Nat → String) (li : LegacySidebarItem)
    (ni : SidebarItem) : Prop :=
  ni.id = li.id ∧ ni.title = li.title ∧
  List.Forall₂ (MigCatRel supply) li.categories ni.categories

/-! ### Id collectors over the whole Project (for the uniqueness claim) -/

def layerIdsOfState (s : AppState) : List String :=
  s.sidebarItems.flatMap (fun it => it.categories.flatMap (fun c =>
    c.layers.map (fun l => l.id)))

def tableIdsOfState (s : AppState) : List String :=
  s.sidebarItems.flatMap (fun it => it.categories.flatMap (fun c =>
    c.layers.flatMap (fun l => l.tables.map (fun t => t.id))))

def rowIdsOfState (s : AppState) : List String :=
  s.sidebarItems.flatMap (fun it => it.categories.flatMap (fun c =>
    c.layers.flatMap (fun l => l.tables.flatMap (fun t =>
      t.rows.map (fun r => r.id)))))

/-! ### Concrete sample values used by witnesses and counterexamples -/

def appB : AppState := ⟨"Base", [], none, none⟩

def storeB : Store := ⟨appB, [], [], appB⟩

def sampleTable : TableData :=
  ⟨"T1", "Table 1", [⟨"col1", "1", some 100⟩],
    [⟨"r1", [("col1", ⟨"cell1", "v"⟩)], some 40⟩]⟩

def sampleLayer : Layer := ⟨"L1", "Layer", "", none, none, 650, 420, [sampleTable]⟩

def sampleItem : SidebarItem := ⟨"i1", "Item", [⟨"c1", "Cat", [sampleLayer]⟩]⟩

def appC : AppState := ⟨"P", [sampleItem], some "i1", some "c1"⟩

def storeC : Store := ⟨appC, [], [], appC⟩

def itemA : SidebarItem := ⟨"a", "A", []⟩

def itemB : SidebarItem := ⟨"b", "B", []⟩

def freshIds (n : Nat) : String := "fresh" ++ toString n

/-- A provably injective id supply (`n` letters 'a'). -/
def unarySupply (n : Nat) : String := String.mk (List.replicate n 'a')

/-- A legacy persisted blob exercising all three migration cases: a
`tableData` layer, a bare layer, an already-migrated layer, and a second
`tableData` layer. -/
def legacySample : LegacyAppState :=
  ⟨"P",
    [⟨"i1", "Item",
      [⟨"c1", "Cat",
        [⟨"L1", "Old", "", none, none, 650, 420,
          some ⟨[⟨"col1", "1", some 100⟩],
            [⟨"r1", [("col1", ⟨"cell1", "v"⟩)], some 40⟩]⟩, none⟩,
         ⟨"L2", "Bare", "", none, none, 650, 420, none, none⟩,
         ⟨"L3", "New", "", none, none, 650, 420, none, some [sampleTable]⟩,
         ⟨"L4", "Old2", "", none, none, 650, 420,
          some ⟨[⟨"col2", "1", some 100⟩], [⟨"r2", [("col2", ⟨"cell2", "w"⟩)], some 40⟩]⟩,
          none⟩]⟩]⟩],
    some "i1", some "c1"⟩

/-! ### Frame relations describing `updateLayer`'s footprint -/

/-- What `updateLayer` may do to a single layer, given the ids of the
item and category containing it: layers with a different id are
untouched; the layer with the target id, when its item and category are
the active ones, becomes the shallow merge of itself with the resolved
updates. -/
def LayerFrameRel (s : AppState) (layerId : String) (u : LayerUpdates)
    (itId catId : String) (l l' : Layer) : Prop :=
  (l.id ≠ layerId → l' = l) ∧
  (some itId = s.activeSidebarItemId → some catId = s.activeCategoryId →
    l.id = layerId → l' = applyPatch l (resolveUpdates u l))

/-- `updateLayer` changes nothing of a category beyond (possibly) the
target layer inside it, and leaves non-active categories whole. -/
def CatFrameRel (s : AppState) (layerId : String) (u : LayerUpdates)
    (itId : String) (c c' : Category) : Prop :=
  (some c.id ≠ s.activeCategoryId → c' = c) ∧
  c'.id = c.id ∧ c'.title = c.title ∧
  List.Forall₂ (LayerFrameRel s layerId u itId c.id) c.layers c'.layers

/-- `updateLayer` changes nothing of an item beyond (possibly) the target
layer inside its active category, and leaves non-active items whole. -/
def ItemFrameRel (s : AppState) (layerId : String) (u : LayerUpdates)
    (it it' : SidebarItem) : Prop :=
  (some it.id ≠ s.activeSidebarItemId → it' = it) ∧
  it'.id = it.id ∧ it'.title = it.title ∧
  List.Forall₂ (CatFrameRel s layerId u it.id) it.categories it'.categories

/-! ### Lemmas about the cells-map primitives -/

theorem countKey_cons (e : String × CellData) (m : List (String × CellData)) (k : String) :
    countKey (e :: m) k = (if e.1 == k then 1 else 0) + countKey m k := by
  by_cases h : (e.1 == k) = true <;>
    simp [countKey, List.filter_cons, h, List.length_cons] <;> omega

theorem countKey_pos_of_any (m : List (String × CellData)) (k : String)
    (h : m.any (fun e => e.1 == k) = true) : 1 ≤ countKey m k := by
  induction m with
  | nil => simp at h
  | cons e m ih =>
    rw [countKey_cons]
    rcases (by simpa using h : e.1 = k ∨ (m.any fun e => e.1 == k) = true) with h1 | h2
    · simp [h1]
    · have := ih h2
      omega

theorem countKey_eq_zero_of_not_any (m : List (String × CellData)) (k : String)
    (h : m.any (fun e => e.1 == k) = false) : countKey m k = 0 := by
  induction m with
  | nil => rfl
  | cons e m ih =>
    have h' : ¬e.1 = k ∧ (m.any fun e => e.1 == k) = false := by
      simpa [List.any_cons] using h
    have hb : (e.1 == k) = false := beq_eq_false_iff_ne.mpr h'.1
    rw [countKey_cons, hb]
    simp [ih h'.2]

theorem countKey_map_set (m : List (String × CellData)) (k k' : String) (c : CellData) :
    countKey (m.map (fun e => if e.1 == k then (k, c) else e)) k' = countKey m k' := by
  induction m with
  | nil => rfl
  | cons e m ih =>
    by_cases he : (e.1 == k) = true
    · have hk : e.1 = k := by simpa using he
      simp only [List.map_cons, he, if_true, countKey_cons, ih, hk]
      simp
    · simp only [List.map_cons, he, Bool.false_eq_true, if_false, countKey_cons, ih]

theorem countKey_setKey (m : List (String × CellData)) (k k' : String) (c : CellData) :
    countKey (setKey m k c) k' =
      if k' = k then max (countKey m k) 1 else countKey m k' := by
  unfold setKey
  by_cases hp : (m.any fun e => e.1 == k) = true
  · rw [if_pos hp, countKey_map_set]
    by_cases hk' : k' = k
    · subst hk'
      have h1 := countKey_pos_of_any m k' hp
      rw [if_pos rfl]
      omega
    · rw [if_neg hk']
  · rw [if_neg hp]
    have hp' : (m.any fun e => e.1 == k) = false := Bool.eq_false_iff.mpr hp
    have h0 : countKey m k = 0 := countKey_eq_zero_of_not_any m k hp'
    have happ : countKey (m ++ [(k, c)]) k' = countKey m k' + countKey [(k, c)] k' := by
      simp [countKey, List.filter_append]
    rw [happ]
    by_cases hk' : k' = k
    · subst hk'
      rw [if_pos rfl, h0, countKey_cons]
      simp [countKey]
    · rw [if_neg hk', countKey_cons]
      have hbe : (((k, c) : String × CellData).1 == k') = false :=
        beq_eq_false_iff_ne.mpr (Ne.symm hk')
      simp [hbe, countKey]

theorem mem_setKey (m : List (String × CellData)) (k : String) (c : CellData)
    (e' : String × CellData) (h : e' ∈ setKey m k c) : e'.1 = k ∨ e' ∈ m := by
  unfold setKey at h
  by_cases hp : (m.any fun e => e.1 == k) = true
  · rw [if_pos hp] at h
    rcases List.mem_map.mp h with ⟨e, he, heq⟩
    by_cases hek : (e.1 == k) = true
    · rw [if_pos hek] at heq
      left
      rw [← heq]
    · rw [if_neg (by simp [hek])] at heq
      right
      rw [← heq]
      exact he
  · rw [if_neg hp] at h
    rcases List.mem_append.mp h with h | h
    · right; exact h
    · left
      have he : e' = (k, c) := by simpa using h
      rw [he]

theorem countKey_delKey (m : List (String × CellData)) (k k' : String) :
    countKey (delKey m k) k' = if k' = k then 0 else countKey m k' := by
  induction m with
  | nil => simp [delKey, countKey]
  | cons e m ih =>
    by_cases hek : (e.1 == k) = true
    · have hk : e.1 = k := by simpa using hek
      have hb : (e.1 != k) = false := by simp [bne, hek]
      simp only [delKey, List.filter_cons, hb, Bool.false_eq_true, if_false]
      rw [show (List.filter (fun e => e.1 != k) m) = delKey m k from rfl, ih]
      by_cases hk' : k' = k
      · simp [hk']
      · have hek' : (e.1 == k') = false := by
          rw [hk]
          exact beq_eq_false_iff_ne.mpr (Ne.symm hk')
        rw [if_neg hk', if_neg hk', countKey_cons, hek']
        simp
    · have hb : (e.1 != k) = true := by simp [bne, hek]
      simp only [delKey, List.filter_cons, hb, if_true]
      rw [countKey_cons,
        show (List.filter (fun e => e.1 != k) m) = delKey m k from rfl, ih,
        countKey_cons]
      by_cases hk' : k' = k
      · subst hk'
        have hek' : (e.1 == k') = false := by simpa using hek
        simp [hek']
      · simp [hk']

theorem mem_delKey (m : List (String × CellData)) (k : String)
    (e : String × CellData) (h : e ∈ delKey m k) : e ∈ m ∧ e.1 ≠ k := by
  unfold delKey at h
  have h1 := List.of_mem_filter h
  refine ⟨List.mem_of_mem_filter h, ?_⟩
  simpa using h1

theorem countKey_eq_zero_of_keys (m : List (String × CellData)) (k : String)
    (h : ∀ e ∈ m, e.1 ≠ k) : countKey m k = 0 := by
  apply countKey_eq_zero_of_not_any
  rw [List.any_eq_false]
  intro e he
  simpa using h e he

/-! ### Preservation of the row/column sync invariant -/

theorem rowSynced_iff (cids : List String) (m : List (String × CellData)) :
    rowSynced cids m = true ↔
      (∀ k ∈ cids, countKey m k = 1) ∧ (∀ e ∈ m, e.1 ∈ cids) := by
  unfold rowSynced
  rw [Bool.and_eq_true, List.all_eq_true, List.all_eq_true]
  constructor
  · rintro ⟨h1, h2⟩
    exact ⟨fun k hk => by simpa using h1 k hk, fun e he => by simpa using h2 e he⟩
  · rintro ⟨h1, h2⟩
    exact ⟨fun k hk => by simp [h1 k hk], fun e he => by simp [h2 e he]⟩

theorem tableSynced_iff (t : TableData) :
    tableSynced t = true ↔ ∀ r ∈ t.rows, rowSynced (colIds t) r.cells = true := by
  unfold tableSynced
  rw [List.all_eq_true]

/-- Adding a fresh column id keeps a row in sync (`addColumn`). -/
theorem rowSynced_setKey_new (cids : List String) (m : List (String × CellData))
    (newId : String) (c : CellData) (h : rowSynced cids m = true) :
    rowSynced (cids ++ [newId]) (setKey m newId c) = true := by
  rw [rowSynced_iff] at h ⊢
  obtain ⟨hcount, hkeys⟩ := h
  constructor
  · intro k hk
    rw [countKey_setKey]
    by_cases hknew : k = newId
    · rw [if_pos hknew]
      by_cases hmem : newId ∈ cids
      · rw [hcount newId hmem]
        decide
      · rw [countKey_eq_zero_of_keys m newId (fun e he hek => hmem (hek ▸ hkeys e he))]
        decide
    · rw [if_neg hknew]
      rcases List.mem_append.mp hk with hk | hk
      · exact hcount k hk
      · exact absurd (List.mem_singleton.mp hk) hknew
  · intro e he
    rcases mem_setKey m newId c e he with h1 | h1
    · exact List.mem_append.mpr (Or.inr (by simp [h1]))
    · exact List.mem_append.mpr (Or.inl (hkeys e h1))

/-- Overwriting the cell of an existing column keeps a row in sync
(`saveEdit`). -/
theorem rowSynced_setKey_mem (cids : List String) (m : List (String × CellData))
    (k0 : String) (c : CellData) (hmem : k0 ∈ cids) (h : rowSynced cids m = true) :
    rowSynced cids (setKey m k0 c) = true := by
  rw [rowSynced_iff] at h ⊢
  obtain ⟨hcount, hkeys⟩ := h
  constructor
  · intro k hk
    rw [countKey_setKey]
    by_cases hk0 : k = k0
    · rw [if_pos hk0, hcount k0 hmem]
      decide
    · rw [if_neg hk0]
      exact hcount k hk
  · intro e he
    rcases mem_setKey m k0 c e he with h1 | h1
    · rw [h1]; exact hmem
    · exact hkeys e h1

/-- Deleting a column's cell keeps a row in sync with the filtered column
set (`removeColumn`). -/
theorem rowSynced_delKey (cids : List String) (m : List (String × CellData))
    (colId : String) (h : rowSynced cids m = true) :
    rowSynced (cids.filter (fun k => k != colId)) (delKey m colId) = true := by
  rw [rowSynced_iff] at h ⊢
  obtain ⟨hcount, hkeys⟩ := h
  constructor
  · intro k hk
    have hk1 := List.mem_of_mem_filter hk
    have hk2 : k ≠ colId := by simpa using List.of_mem_filter hk
    rw [countKey_delKey, if_neg hk2]
    exact hcount k hk1
  · intro e he
    obtain ⟨h1, h2⟩ := mem_delKey m colId e he
    exact List.mem_filter.mpr ⟨hkeys e h1, by simpa using h2⟩

/-- Counting keys after building a fresh row's cells object by folding
`setKey` over the columns (`addRow`). -/
theorem countKey_foldl_setKey (rid : String) :
    ∀ (cols : List ColumnData) (m : List (String × CellData)),
      (∀ k, countKey m k ≤ 1) → ∀ k,
      countKey (cols.foldl (fun m col => setKey m col.id ⟨col.id ++ rid, ""⟩) m) k =
        if cols.any (fun c => c.id == k) then 1 else countKey m k
  | [], _, _, k => by simp
  | col :: cols, m, hm, k => by
    rw [List.foldl_cons]
    have hm' : ∀ k', countKey (setKey m col.id ⟨col.id ++ rid, ""⟩) k' ≤ 1 := by
      intro k'
      rw [countKey_setKey]
      by_cases h : k' = col.id
      · rw [if_pos h]
        have := hm col.id
        omega
      · rw [if_neg h]
        exact hm k'
    rw [countKey_foldl_setKey rid cols _ hm' k]
    by_cases hc : (cols.any fun c => c.id == k) = true
    · simp [hc]
    · have hc' : (cols.any fun c => c.id == k) = false := Bool.eq_false_iff.mpr hc
      rw [if_neg hc, countKey_setKey]
      by_cases hck : col.id = k
      · rw [if_pos hck.symm, List.any_cons, hck]
        simp only [beq_self_eq_true, Bool.true_or, if_true]
        have h1 := hm k
        omega
      · have hb : (col.id == k) = false := beq_eq_false_iff_ne.mpr hck
        rw [if_neg (fun h => hck h.symm), List.any_cons, hb, hc']
        simp

/-- Keys after building a fresh row's cells object all come from the
columns. -/
theorem mem_foldl_setKey (rid : String) :
    ∀ (cols : List ColumnData) (m : List (String × CellData))
      (e : String × CellData),
      e ∈ cols.foldl (fun m col => setKey m col.id ⟨col.id ++ rid, ""⟩) m →
      e ∈ m ∨ ∃ c ∈ cols, e.1 = c.id
  | [], _, _, h => Or.inl h
  | col :: cols, m, e, h => by
    rw [List.foldl_cons] at h
    rcases mem_foldl_setKey rid cols _ e h with h1 | h1
    · rcases mem_setKey _ _ _ _ h1 with h2 | h2
      · exact Or.inr ⟨col, by simp, h2⟩
      · exact Or.inl h2
    · obtain ⟨c, hc, hce⟩ := h1
      exact Or.inr ⟨c, by simp [hc], hce⟩

theorem map_filter_colIds (l : List ColumnData) (p : String → Bool) :
    (l.filter (fun c => p c.id)).map (fun c : ColumnData => c.id) =
      (l.map (fun c : ColumnData => c.id)).filter p := by
  induction l with
  | nil => rfl
  | cons c l ih =>
    by_cases h : p c.id = true <;> simp [List.filter_cons, h, ih]

/-- One table operation preserves the sync invariant (for `updateCell` the
component only ever targets an existing column). -/
theorem tableSynced_applyTableOp (t : TableData) (op : TableOp)
    (ht : tableSynced t = true) (hv : opValid t op = true) :
    tableSynced (applyTableOp t op) = true := by
  rw [tableSynced_iff] at ht ⊢
  cases op with
  | addCol newColId =>
    intro r' hr'
    simp only [applyTableOp, addColumnOp] at hr'
    rcases List.mem_map.mp hr' with ⟨r, hr, hreq⟩
    have hcol : colIds (addColumnOp newColId t) = colIds t ++ [newColId] := by
      simp [colIds, addColumnOp]
    rw [show applyTableOp t (.addCol newColId) = addColumnOp newColId t from rfl, hcol,
      ← hreq]
    exact rowSynced_setKey_new _ _ _ _ (ht r hr)
  | addRow newRowId =>
    intro r' hr'
    simp only [applyTableOp, addRowOp] at hr'
    have hcol : colIds (addRowOp newRowId t) = colIds t := by
      simp [colIds, addRowOp]
    rw [show applyTableOp t (.addRow newRowId) = addRowOp newRowId t from rfl, hcol]
    rcases List.mem_append.mp hr' with hr | hr
    · exact ht r' hr
    · have hr0 := List.mem_singleton.mp hr
      rw [hr0]
      rw [rowSynced_iff]
      constructor
      · intro k hk
        rw [countKey_foldl_setKey newRowId t.columns [] (by intro k'; simp [countKey]) k]
        have : (t.columns.any fun c => c.id == k) = true := by
          rw [List.any_eq_true]
          rcases List.mem_map.mp hk with ⟨c, hc, hck⟩
          exact ⟨c, hc, by simp [hck]⟩
        rw [if_pos this]
      · intro e he
        rcases mem_foldl_setKey newRowId t.columns [] e he with h1 | h1
        · simp at h1
        · obtain ⟨c, hc, hce⟩ := h1
          exact List.mem_map.mpr ⟨c, hc, hce.symm⟩
  | rmCol colId =>
    intro r' hr'
    simp only [applyTableOp, removeColumnOp] at hr' ⊢
    by_cases hlen : t.columns.length ≤ 1
    · rw [if_pos hlen] at hr' ⊢
      exact ht r' hr'
    · rw [if_neg hlen] at hr' ⊢
      rcases List.mem_map.mp hr' with ⟨r, hr, hreq⟩
      have hcol : (List.filter (fun c => c.id != colId) t.columns).map
          (fun c : ColumnData => c.id) = (colIds t).filter (fun k => k != colId) := by
        rw [show (fun c : ColumnData => c.id != colId) =
          (fun c : ColumnData => (fun k => k != colId) c.id) from rfl]
        exact map_filter_colIds t.columns (fun k => k != colId)
      simp only [colIds] at hcol ⊢
      rw [hcol, ← hreq]
      exact rowSynced_delKey _ _ _ (ht r hr)
  | rmRow rowId =>
    intro r' hr'
    simp only [applyTableOp, removeRowOp] at hr' ⊢
    by_cases hlen : t.rows.length ≤ 1
    · rw [if_pos hlen] at hr' ⊢
      exact ht r' hr'
    · rw [if_neg hlen] at hr' ⊢
      exact ht r' (List.mem_of_mem_filter hr')
  | setCell rowId colId v =>
    intro r' hr'
    simp only [applyTableOp, updateCellOp] at hr'
    have hcol : colIds (updateCellOp rowId colId v t) = colIds t := rfl
    rw [show applyTableOp t (.setCell rowId colId v) = updateCellOp rowId colId v t
      from rfl, hcol]
    have hmem : colId ∈ colIds t := by
      simpa [opValid] using hv
    rcases List.mem_map.mp hr' with ⟨r, hr, hreq⟩
    rw [← hreq]
    by_cases hrid : r.id = rowId
    · rw [if_pos hrid]
      exact rowSynced_setKey_mem _ _ _ _ hmem (ht r hr)
    · rw [if_neg hrid]
      exact ht r hr

/-- A valid sequence of table operations preserves the sync invariant. -/
theorem tableSynced_applyTableOps (ops : List TableOp) :
    ∀ (t : TableData), tableSynced t = true → opsValid t ops = true →
      tableSynced (applyTableOps t ops) = true := by
  induction ops with
  | nil => exact fun t ht _ => ht
  | cons op ops ih =>
    intro t ht hv
    rw [opsValid, Bool.and_eq_true] at hv
    exact ih (applyTableOp t op) (tableSynced_applyTableOp t op ht hv.1) hv.2

/-! ### Pointwise lookup behaviour of the cells-map primitives -/

theorem lookupKey_cons (e : String × CellData) (m : List (String × CellData))
    (k : String) :
    lookupKey (e :: m) k = if e.1 == k then some e.2 else lookupKey m k := by
  by_cases h : (e.1 == k) = true
  · simp [lookupKey, List.find?_cons, h]
  · simp [lookupKey, List.find?_cons, h]

theorem lookupKey_map_set (m : List (String × CellData)) (k : String) (c : CellData) :
    (m.any fun e => e.1 == k) = true →
    lookupKey (m.map (fun e => if e.1 == k then (k, c) else e)) k = some c := by
  induction m with
  | nil =>
    intro hp
    simp at hp
  | cons e m ih =>
    intro hp
    rw [List.map_cons]
    by_cases he : (e.1 == k) = true
    · rw [if_pos he, lookupKey_cons]
      simp
    · rw [if_neg he, lookupKey_cons, if_neg he]
      apply ih
      simpa [List.any_cons, he] using hp

theorem lookupKey_append_single (m : List (String × CellData)) (k : String)
    (c : CellData) :
    (m.any fun e => e.1 == k) = false →
    lookupKey (m ++ [(k, c)]) k = some c := by
  induction m with
  | nil =>
    intro _
    rw [List.nil_append, lookupKey_cons]
    simp
  | cons e m ih =>
    intro hp
    rw [List.any_cons] at hp
    obtain ⟨h1, h2⟩ := Bool.or_eq_false_iff.mp hp
    rw [List.cons_append, lookupKey_cons, if_neg (by simp [h1])]
    exact ih h2

theorem lookupKey_setKey_self (m : List (String × CellData)) (k : String)
    (c : CellData) : lookupKey (setKey m k c) k = some c := by
  unfold setKey
  by_cases hp : (m.any fun e => e.1 == k) = true
  · rw [if_pos hp]
    exact lookupKey_map_set m k c hp
  · rw [if_neg hp]
    exact lookupKey_append_single m k c (Bool.eq_false_iff.mpr hp)

theorem lookupKey_setKey_ne (m : List (String × CellData)) (k k' : String)
    (c : CellData) (h : k' ≠ k) :
    lookupKey (setKey m k c) k' = lookupKey m k' := by
  have hkc : (((k, c) : String × CellData).1 == k') = false :=
    beq_eq_false_iff_ne.mpr (Ne.symm h)
  unfold setKey
  by_cases hp : (m.any fun e => e.1 == k) = true
  · rw [if_pos hp]
    clear hp
    induction m with
    | nil => rfl
    | cons e m ih =>
      rw [List.map_cons, lookupKey_cons, lookupKey_cons]
      by_cases he : (e.1 == k) = true
      · have hk : e.1 = k := by simpa using he
        have h2 : (e.1 == k') = false := by
          rw [hk]
          exact beq_eq_false_iff_ne.mpr (Ne.symm h)
        rw [if_pos he, if_neg (by simp [hkc]), if_neg (by simp [h2])]
        exact ih
      · rw [if_neg he]
        by_cases he' : (e.1 == k') = true
        · rw [if_pos he', if_pos he']
        · rw [if_neg he', if_neg he']
          exact ih
  · rw [if_neg hp]
    clear hp
    induction m with
    | nil =>
      rw [List.nil_append, lookupKey_cons, if_neg (by simp [hkc])]
    | cons e m ih =>
      rw [List.cons_append, lookupKey_cons, lookupKey_cons]
      by_cases he' : (e.1 == k') = true
      · rw [if_pos he', if_pos he']
      · rw [if_neg he', if_neg he']
        exact ih

theorem lookupKey_delKey_self (m : List (String × CellData)) (k : String) :
    lookupKey (delKey m k) k = none := by
  induction m with
  | nil => rfl
  | cons e m ih =>
    by_cases he : (e.1 == k) = true
    · have hb : (e.1 != k) = false := by simp [bne, he]
      simp only [delKey, List.filter_cons, hb, Bool.false_eq_true, if_false]
      exact ih
    · have hb : (e.1 != k) = true := by simp [bne, he]
      simp only [delKey, List.filter_cons, hb, if_true]
      rw [lookupKey_cons, if_neg he]
      exact ih

theorem lookupKey_delKey_ne (m : List (String × CellData)) (k k' : String)
    (h : k' ≠ k) : lookupKey (delKey m k) k' = lookupKey m k' := by
  induction m with
  | nil => rfl
  | cons e m ih =>
    by_cases he : (e.1 == k) = true
    · have hk : e.1 = k := by simpa using he
      have hb : (e.1 != k) = false := by simp [bne, he]
      have he' : (e.1 == k') = false := by
        rw [hk]
        exact beq_eq_false_iff_ne.mpr (Ne.symm h)
      simp only [delKey, List.filter_cons, hb, Bool.false_eq_true, if_false]
      rw [show List.filter (fun e => e.1 != k) m = delKey m k from rfl, ih,
        lookupKey_cons, if_neg (by simp [he'])]
    · have hb : (e.1 != k) = true := by simp [bne, he]
      simp only [delKey, List.filter_cons, hb, if_true]
      rw [lookupKey_cons, lookupKey_cons]
      by_cases he' : (e.1 == k') = true
      · rw [if_pos he', if_pos he']
      · rw [if_neg he', if_neg he']
        exact ih

/-- C4: starting from a table where every row has exactly one cell per
column id, every sequence of table operations (add/remove row, add/remove
column, update cell value — cell updates targeting an existing column, the
only way the component issues them) keeps every row's cell mapping with
exactly one Cell entry per current column id; in particular `addColumn`
inserts a fresh empty cell into every row and `removeColumn` deletes that
column's cell from every row, leaving other cells untouched. -/
theorem claim_C4_row_column_sync :
    (∀ (t : TableData) (ops : List TableOp),
        tableSynced t = true → opsValid t ops = true →
        tableSynced (applyTableOps t ops) = true) ∧
    (∀ (t : TableData) (newColId : String),
        List.Forall₂ (fun r r' : RowData =>
            lookupKey r'.cells newColId = some ⟨newColId ++ r.id, ""⟩ ∧
            ∀ k : String, k ≠ newColId → lookupKey r'.cells k = lookupKey r.cells k)
          t.rows (addColumnOp newColId t).rows) ∧
    (∀ (t : TableData) (colId : String), 1 < t.columns.length →
        List.Forall₂ (fun r r' : RowData =>
            lookupKey r'.cells colId = none ∧
            ∀ k : String, k ≠ colId → lookupKey r'.cells k = lookupKey r.cells k)
          t.rows (removeColumnOp colId t).rows) := by
  refine ⟨fun t ops => tableSynced_applyTableOps ops t, ?_, ?_⟩
  · intro t newColId
    show List.Forall₂ _ t.rows (t.rows.map (fun r : RowData =>
      ({ r with cells := setKey r.cells newColId ⟨newColId ++ r.id, ""⟩ } : RowData)))
    rw [List.forall₂_map_right_iff, List.forall₂_same]
    intro r _
    exact ⟨lookupKey_setKey_self _ _ _, fun k hk => lookupKey_setKey_ne _ _ _ _ hk⟩
  · intro t colId hlen
    unfold removeColumnOp
    rw [if_neg (by omega)]
    show List.Forall₂ _ t.rows (t.rows.map (fun r : RowData =>
      ({ r with cells := delKey r.cells colId } : RowData)))
    rw [List.forall₂_map_right_iff, List.forall₂_same]
    intro r _
    exact ⟨lookupKey_delKey_self _ _, fun k hk => lookupKey_delKey_ne _ _ _ hk⟩

/-- Concrete run of C4: a two-column table with one row, then adding a
column, editing a cell and removing a column, stays in sync. -/
theorem claim_C4_row_column_sync_witness :
    tableSynced
        ⟨"T1", "Table 1",
          [⟨"c1", "1", some 100⟩, ⟨"c2", "2", some 100⟩],
          [⟨"r1", [("c1", ⟨"c1r1", "a"⟩), ("c2", ⟨"c2r1", "b"⟩)], some 40⟩]⟩ = true ∧
      opsValid
        ⟨"T1", "Table 1",
          [⟨"c1", "1", some 100⟩, ⟨"c2", "2", some 100⟩],
          [⟨"r1", [("c1", ⟨"c1r1", "a"⟩), ("c2", ⟨"c2r1", "b"⟩)], some 40⟩]⟩
        [.addCol "c3", .setCell "r1" "c3" "x", .addRow "r2", .rmCol "c1"] = true ∧
      tableSynced
        (applyTableOps
          ⟨"T1", "Table 1",
            [⟨"c1", "1", some 100⟩, ⟨"c2", "2", some 100⟩],
            [⟨"r1", [("c1", ⟨"c1r1", "a"⟩), ("c2", ⟨"c2r1", "b"⟩)], some 40⟩]⟩
          [.addCol "c3", .setCell "r1" "c3" "x", .addRow "r2", .rmCol "c1"]) = true :=
  ⟨by decide, by decide,
    claim_C4_row_column_sync.1
      ⟨"T1", "Table 1",
        [⟨"c1", "1", some 100⟩, ⟨"c2", "2", some 100⟩],
        [⟨"r1", [("c1", ⟨"c1r1", "a"⟩), ("c2", ⟨"c2r1", "b"⟩)], some 40⟩]⟩
      [.addCol "c3", .setCell "r1" "c3" "x", .addRow "r2", .rmCol "c1"]
      (by decide) (by decide)⟩

/-! ## Claim C9 — empty-after-trim project titles are rejected -/

/-- C9: `setProjectTitle` (the sidebar title-save flow feeding
`handleUpdateProjectTitle`) replaces the project title — and nothing
else — exactly when the edited title is non-empty after trimming, and
leaves the state unchanged when the title trims to empty. -/
theorem claim_C9_set_project_title (s : AppState) (t : String) :
    (trimJS t ≠ "" → titleSave t s = { s with projectTitle := t }) ∧
    (trimJS t = "" → titleSave t s = s) := by
  constructor
  · intro h
    unfold titleSave
    rw [if_pos h]
    rfl
  · intro h
    unfold titleSave
    rw [if_neg (by simp [h])]

/-- Concrete run of C9: a padded non-empty title is saved as given, an
all-blank title is ignored. -/
theorem claim_C9_set_project_title_witness :
    titleSave " New Name " ⟨"Old", [], none, none⟩ =
        ⟨" New Name ", [], none, none⟩ ∧
      titleSave "   " ⟨"Old", [], none, none⟩ = ⟨"Old", [], none, none⟩ :=
  ⟨(claim_C9_set_project_title ⟨"Old", [], none, none⟩ " New Name ").1 (by decide),
   (claim_C9_set_project_title ⟨"Old", [], none, none⟩ "   ").2 (by decide)⟩

/-! ## Claim C6 — removeItem cascade and active references -/

/-- C6 as stated is false: removing the active sidebar item clears the
active item reference but leaves the active category reference pointing
at a category of the removed item. -/
theorem claim_C6_counterexample :
    (removeItemUpd "i1" appC).sidebarItems = [] ∧
      (removeItemUpd "i1" appC).activeSidebarItemId = none ∧
      (removeItemUpd "i1" appC).activeCategoryId = some "c1" := by
  decide

/-- C6 amended: `removeItem(id)` removes the item — and with it all of
its categories, layers and tables, which exist only inside it — keeps
every other item, and clears the active item reference when it was the
removed item; the active category reference is left unchanged. -/
theorem claim_C6_remove_item (s : AppState) (id : String) :
    (removeItemUpd id s).sidebarItems =
        s.sidebarItems.filter (fun item => item.id != id) ∧
      (removeItemUpd id s).activeSidebarItemId =
        (if s.activeSidebarItemId = some id then none else s.activeSidebarItemId) ∧
      (removeItemUpd id s).activeCategoryId = s.activeCategoryId ∧
      (removeItemUpd id s).projectTitle = s.projectTitle ∧
      (∀ item ∈ (removeItemUpd id s).sidebarItems,
        item.id ≠ id ∧ item ∈ s.sidebarItems) ∧
      (∀ item ∈ s.sidebarItems, item.id ≠ id →
        item ∈ (removeItemUpd id s).sidebarItems) := by
  refine ⟨rfl, rfl, rfl, rfl, ?_, ?_⟩
  · intro item hmem
    exact ⟨by simpa using List.of_mem_filter hmem, List.mem_of_mem_filter hmem⟩
  · intro item hmem hne
    exact List.mem_filter.mpr ⟨hmem, by simpa using hne⟩

/-- Concrete run of C6 (amended): the surviving item is kept. -/
theorem claim_C6_remove_item_witness :
    itemB ∈ (removeItemUpd "a" ⟨"P", [itemA, itemB], some "b", none⟩).sidebarItems :=
  (claim_C6_remove_item ⟨"P", [itemA, itemB], some "b", none⟩ "a").2.2.2.2.2 itemB
    (by decide) (by decide)

/-! ## Claim C5 — loadSnapshot semantics and the unsaved-changes flag -/

/-- C5: loading a snapshot replaces the whole live Project, pushes the
prior live state onto the undo stack, clears the redo stack, and resets
the baseline to the loaded state, so `hasUnsavedChanges` is false right
after a load (and after a save, as in Scenario D), and true again after
any subsequent edit that changes the state. -/
theorem claim_C5_load_snapshot (h : Store) (snap : AppState) :
    (handleLoadLayout snap h).app = snap ∧
      (handleLoadLayout snap h).undo = h.undo ++ [h.app] ∧
      (handleLoadLayout snap h).redo = [] ∧
      (handleLoadLayout snap h).lastSaved = snap ∧
      hasUnsavedChanges (handleLoadLayout snap h) = false ∧
      hasUnsavedChanges (handleSaveLayout h) = false ∧
      (∀ f : AppState → AppState, f snap ≠ snap →
        hasUnsavedChanges (updateState f (handleLoadLayout snap h)) = true) := by
  refine ⟨rfl, rfl, rfl, rfl, ?_, ?_, ?_⟩
  · simp [hasUnsavedChanges, handleLoadLayout]
  · simp [hasUnsavedChanges, handleSaveLayout]
  · intro f hf
    simpa [hasUnsavedChanges, handleLoadLayout, updateState] using hf

/-- Scenario D run: with an edited live state, loading the saved snapshot
clears the unsaved flag; a further real edit sets it again. -/
theorem claim_C5_load_snapshot_witness :
    hasUnsavedChanges
        (handleLoadLayout appB ⟨⟨"Edited", [], none, none⟩, [], [], appB⟩) = false ∧
      hasUnsavedChanges
        (updateState (setProjectTitleUpd "X")
          (handleLoadLayout appB ⟨⟨"Edited", [], none, none⟩, [], [], appB⟩)) = true :=
  ⟨(claim_C5_load_snapshot ⟨⟨"Edited", [], none, none⟩, [], [], appB⟩ appB).2.2.2.2.1,
   (claim_C5_load_snapshot ⟨⟨"Edited", [], none, none⟩, [], [], appB⟩ appB).2.2.2.2.2.2
      (setProjectTitleUpd "X") (by decide)⟩

/-! ## Claim C2 — the 50-entry cap on the history stacks -/

set_option maxRecDepth 4000 in
/-- C2 as stated is false: `handleLoadLayout` pushes onto the undo stack
without the cap, so after 50 ordinary edits and one snapshot load the
undo stack holds 51 entries. -/
theorem claim_C2_counterexample :
    50 < (handleLoadLayout appB
        ((handleUpdateProjectTitleH "T")^[50] storeB)).undo.length := by
  decide

/-- C2 amended: pushes routed through `updateState` (ordinary edits) keep
the undo stack at 50 entries at most — below the cap the push is a plain
append, at the cap the oldest entry is discarded — and clear the redo
stack; but the pushes performed by the snapshot load (and likewise by
undo, redo and import) append without the cap, so those operations can
leave more than 50 entries on a stack. -/
theorem claim_C2_bounded_stacks (f : AppState → AppState) (h : Store) :
    (updateState f h).undo.length = min (h.undo.length + 1) MAX_UNDO_STEPS ∧
      (updateState f h).redo = [] ∧
      (h.undo.length < MAX_UNDO_STEPS →
        (updateState f h).undo = h.undo ++ [h.app]) ∧
      (h.undo.length = MAX_UNDO_STEPS →
        (updateState f h).undo = h.undo.tail ++ [h.app]) ∧
      (∀ snap, (handleLoadLayout snap h).undo = h.undo ++ [h.app]) := by
  refine ⟨?_, rfl, ?_, ?_, fun snap => rfl⟩
  · simp only [updateState, List.length_append, List.length_drop, MAX_UNDO_STEPS,
      List.length_cons, List.length_nil]
    omega
  · intro hlt
    simp only [updateState]
    rw [Nat.sub_eq_zero_of_le (by simp only [MAX_UNDO_STEPS] at hlt ⊢; omega),
      List.drop_zero]
  · intro heq
    simp only [updateState, heq, MAX_UNDO_STEPS]
    norm_num

/-- Concrete runs of C2 (amended): a push below the cap appends; a push
at the cap drops the oldest entry. -/
theorem claim_C2_bounded_stacks_witness :
    (updateState (setProjectTitleUpd "X") storeB).undo =
        storeB.undo ++ [storeB.app] ∧
      (updateState (setProjectTitleUpd "X")
          ⟨appB, List.replicate 50 appB, [], appB⟩).undo =
        (List.replicate 50 appB).tail ++ [appB] :=
  ⟨(claim_C2_bounded_stacks (setProjectTitleUpd "X") storeB).2.2.1 (by decide),
   (claim_C2_bounded_stacks (setProjectTitleUpd "X")
      ⟨appB, List.replicate 50 appB, [], appB⟩).2.2.2.1 (by decide)⟩

/-! ## Claim C1 — which operations record history -/

theorem updateState_pushes (f : AppState → AppState) (h : Store) :
    (updateState f h).undo.getLast? = some h.app ∧
      (updateState f h).redo = [] ∧ (updateState f h).app = f h.app := by
  refine ⟨?_, rfl, rfl⟩
  simp [updateState]

theorem isNone_false_of_isSome {α : Type} (o : Option α) (h : o.isSome = true) :
    o.isNone = false := by
  cases o
  · simp at h
  · rfl

/-- C1 as stated is false: `handleUpdateLayer` changes the state (here
the layer's title) yet pushes nothing onto the undo stack — both stacks
stay empty instead of holding the pre-operation Project. -/
theorem claim_C1_counterexample :
    (handleUpdateLayerH "L1" (Sum.inl { title := some "X" }) storeC).app ≠
        storeC.app ∧
      (handleUpdateLayerH "L1" (Sum.inl { title := some "X" }) storeC).undo = [] := by
  constructor
  · decide
  · rfl

/-- C1 amended: every state-changing Tree Store operation except pure
navigation and except `updateLayer` — setProjectTitle, addItem,
removeItem, renameItem, reorderItems, addCategory, renameCategory,
deleteCategory, addLayer, removeLayer, duplicateLayer, reorderLayer —
pushes the pre-operation Project on top of the undo stack and clears the
redo stack as the new state takes effect; `updateLayer` (and with it
every table-level operation, which is routed through it) instead applies
its update directly, leaving the undo and redo stacks untouched. -/
theorem claim_C1_history_push (h : Store)
    (t newId id title catId name layerId : String) (i j : Nat)
    (u : LayerUpdates) (fresh : Nat → String) (up : Bool) :
    ((handleUpdateProjectTitleH t h).undo.getLast? = some h.app ∧
      (handleUpdateProjectTitleH t h).redo = []) ∧
    ((handleAddSidebarItemH newId h).undo.getLast? = some h.app ∧
      (handleAddSidebarItemH newId h).redo = []) ∧
    ((handleRemoveSidebarItemH id h).undo.getLast? = some h.app ∧
      (handleRemoveSidebarItemH id h).redo = []) ∧
    ((handleUpdateSidebarItemH id title h).undo.getLast? = some h.app ∧
      (handleUpdateSidebarItemH id title h).redo = []) ∧
    ((handleReorderSidebarItemsH i j h).undo.getLast? = some h.app ∧
      (handleReorderSidebarItemsH i j h).redo = []) ∧
    (h.app.activeSidebarItemId.isSome = true →
      (handleAddCategoryH newId name h).undo.getLast? = some h.app ∧
      (handleAddCategoryH newId name h).redo = []) ∧
    ((handleUpdateCategoryH catId title h).undo.getLast? = some h.app ∧
      (handleUpdateCategoryH catId title h).redo = []) ∧
    ((handleDeleteCategoryH catId h).undo.getLast? = some h.app ∧
      (handleDeleteCategoryH catId h).redo = []) ∧
    (h.app.activeSidebarItemId.isSome = true →
      h.app.activeCategoryId.isSome = true →
      (handleAddLayerH newId h).undo.getLast? = some h.app ∧
      (handleAddLayerH newId h).redo = []) ∧
    ((handleRemoveLayerH layerId h).undo.getLast? = some h.app ∧
      (handleRemoveLayerH layerId h).redo = []) ∧
    ((handleDuplicateLayerH fresh layerId h).undo.getLast? = some h.app ∧
      (handleDuplicateLayerH fresh layerId h).redo = []) ∧
    ((handleReorderLayerH layerId up h).undo.getLast? = some h.app ∧
      (handleReorderLayerH layerId up h).redo = []) ∧
    ((handleUpdateLayerH layerId u h).undo = h.undo ∧
      (handleUpdateLayerH layerId u h).redo = h.redo ∧
      (handleUpdateLayerH layerId u h).app = updateLayerUpd layerId u h.app) := by
  have hp := fun f => updateState_pushes f h
  refine ⟨⟨(hp _).1, (hp _).2.1⟩, ⟨(hp _).1, (hp _).2.1⟩, ⟨(hp _).1, (hp _).2.1⟩,
    ⟨(hp _).1, (hp _).2.1⟩, ⟨(hp _).1, (hp _).2.1⟩, ?_, ⟨(hp _).1, (hp _).2.1⟩,
    ⟨(hp _).1, (hp _).2.1⟩, ?_, ⟨(hp _).1, (hp _).2.1⟩, ⟨(hp _).1, (hp _).2.1⟩,
    ⟨(hp _).1, (hp _).2.1⟩, rfl, rfl, rfl⟩
  · intro hact
    unfold handleAddCategoryH
    rw [if_neg (by simp [isNone_false_of_isSome _ hact])]
    exact ⟨(hp _).1, (hp _).2.1⟩
  · intro hact1 hact2
    unfold handleAddLayerH
    rw [if_neg (by simp [isNone_false_of_isSome _ hact1,
      isNone_false_of_isSome _ hact2])]
    exact ⟨(hp _).1, (hp _).2.1⟩

/-- Concrete run of C1 (amended): with an active item and category, both
guarded operations push the pre-operation state and clear the redo
stack. -/
theorem claim_C1_history_push_witness :
    ((handleAddCategoryH "c9" "N" storeC).undo.getLast? = some storeC.app ∧
      (handleAddCategoryH "c9" "N" storeC).redo = []) ∧
      ((handleAddLayerH "c9" storeC).undo.getLast? = some storeC.app ∧
        (handleAddLayerH "c9" storeC).redo = []) :=
  ⟨(claim_C1_history_push storeC "t" "c9" "id" "title" "catId" "N" "L1" 0 0
      (Sum.inl { title := some "X" }) freshIds true).2.2.2.2.2.1 (by decide),
   (claim_C1_history_push storeC "t" "c9" "id" "title" "catId" "N" "L1" 0 0
      (Sum.inl { title := some "X" }) freshIds true).2.2.2.2.2.2.2.2.1
      (by decide) (by decide)⟩

/-! ## Claim C7 — reorderItems bounds behaviour -/

theorem map_insertIdx {α β : Type} (f : α → β) :
    ∀ (n : Nat) (a : α) (l : List α),
      (l.insertIdx n a).map f = (l.map f).insertIdx n (f a)
  | 0, _, _ => rfl
  | _ + 1, _, [] => rfl
  | n + 1, a, x :: l => by
    simp only [List.insertIdx_succ_cons, List.map_cons, map_insertIdx f n a l]

theorem insertIdx_eraseIdx_self {α : Type} :
    ∀ (l : List α) (i : Nat) (h9 : i < l.length),
      (l.eraseIdx i).insertIdx i (l.get ⟨i, h9⟩) = l
  | _ :: _, 0, _ => rfl
  | x :: l, n + 1, h9 => by
    simp only [List.eraseIdx_cons_succ, List.insertIdx_succ_cons, List.get_cons_succ]
    rw [insertIdx_eraseIdx_self l n (by simpa using h9)]

/-- C7 as stated is false: with an out-of-bounds `toIndex` the operation
is not a no-op — JS `splice` clamps the insertion to the end and the
item still moves. -/
theorem claim_C7_counterexample :
    reorderJS [itemA, itemB] 0 10 = [some itemB, some itemA] ∧
      reorderJS [itemA, itemB] 0 10 ≠ [itemA, itemB].map some := by
  constructor
  · decide
  · decide

/-- C7 amended: `reorderItems(fromIndex, toIndex)` never raises; for an
in-bounds `fromIndex` it moves exactly that one item, with `toIndex`
clamped into the list (so equal in-bounds indices leave the list
unchanged, but an out-of-bounds `toIndex` moves the item to the end
instead of being rejected); for an out-of-bounds `fromIndex` it is not
rejected either: JS splices an `undefined` entry (embedded as `none`)
into the list.  Only the items list is touched. -/
theorem claim_C7_reorder_items (xs : List SidebarItem) (i j : Nat) (s : AppState) :
    (∀ h9 : i < xs.length,
      reorderJS xs i j =
        ((xs.eraseIdx i).insertIdx (min j (xs.length - 1)) (xs.get ⟨i, h9⟩)).map some) ∧
      (i < xs.length → i = j → reorderJS xs i j = xs.map some) ∧
      (xs.length ≤ i →
        reorderJS xs i j = (xs.map some).insertIdx (min j xs.length) none) ∧
      ((reorderItemsUpd i j s).projectTitle = s.projectTitle ∧
        (reorderItemsUpd i j s).activeSidebarItemId = s.activeSidebarItemId ∧
        (reorderItemsUpd i j s).activeCategoryId = s.activeCategoryId) := by
  have key : ∀ h9 : i < xs.length,
      reorderJS xs i j =
        ((xs.eraseIdx i).insertIdx (min j (xs.length - 1)) (xs.get ⟨i, h9⟩)).map some := by
    intro h9
    unfold reorderJS spliceRemove spliceInsert
    rw [List.get?_eq_get h9]
    simp only [List.length_map]
    rw [List.length_eraseIdx_of_lt h9, map_insertIdx]
  refine ⟨key, ?_, ?_, rfl, rfl, rfl⟩
  · intro h9 hij
    subst hij
    rw [key h9, Nat.min_eq_left (by omega), insertIdx_eraseIdx_self xs i h9]
  · intro hle
    unfold reorderJS spliceRemove spliceInsert
    rw [List.get?_eq_none.mpr hle]
    simp only [List.length_map]

/-- Concrete runs of C7 (amended): an in-bounds move, an equal-indices
no-op, and the `undefined` insertion for an out-of-bounds source index. -/
theorem claim_C7_reorder_items_witness :
    reorderJS [itemA, itemB] 0 1 =
        (([itemA, itemB].eraseIdx 0).insertIdx (min 1 ([itemA, itemB].length - 1))
          ([itemA, itemB].get ⟨0, by decide⟩)).map some ∧
      reorderJS [itemA, itemB] 1 1 = [itemA, itemB].map some ∧
      reorderJS [itemA] 5 0 = ([itemA].map some).insertIdx (min 0 [itemA].length) none :=
  ⟨(claim_C7_reorder_items [itemA, itemB] 0 1 appB).1 (by decide),
   (claim_C7_reorder_items [itemA, itemB] 1 1 appB).2.1 (by decide) rfl,
   (claim_C7_reorder_items [itemA] 5 0 appB).2.2.1 (by decide)⟩

/-! ## Claim C10 — updateLayer touches only the targeted layer -/

theorem map_self {α : Type} (l : List α) (f : α → α) (h : ∀ a ∈ l, f a = a) :
    l.map f = l := by
  induction l with
  | nil => rfl
  | cons x l ih =>
    rw [List.map_cons, h x (by simp), ih (fun a ha => h a (by simp [ha]))]

/-- C10: `updateLayer(layerId, updates)` modifies at most the layer with
that id under the currently active item's currently active category —
merging the resolved partial update into it — while the project title,
the active selection, and every other item, category and layer (including
one with the same id under a non-active item or category) are left
unchanged; and the operation is a complete no-op when no item or category
is active or when no layer with that id exists under the active
selection. -/
theorem claim_C10_update_layer_frame (s : AppState) (layerId : String)
    (u : LayerUpdates) :
    (updateLayerUpd layerId u s).projectTitle = s.projectTitle ∧
      (updateLayerUpd layerId u s).activeSidebarItemId = s.activeSidebarItemId ∧
      (updateLayerUpd layerId u s).activeCategoryId = s.activeCategoryId ∧
      List.Forall₂ (ItemFrameRel s layerId u) s.sidebarItems
        (updateLayerUpd layerId u s).sidebarItems ∧
      ((∀ it ∈ s.sidebarItems, some it.id = s.activeSidebarItemId →
          ∀ c ∈ it.categories, some c.id = s.activeCategoryId →
            ∀ l ∈ c.layers, l.id ≠ layerId) →
        updateLayerUpd layerId u s = s) := by
  refine ⟨rfl, rfl, rfl, ?_, ?_⟩
  · show List.Forall₂ _ s.sidebarItems (s.sidebarItems.map _)
    simp only [List.forall₂_map_right_iff, List.forall₂_same]
    intro it _
    by_cases hact : some it.id = s.activeSidebarItemId
    · rw [if_pos hact]
      refine ⟨fun hc => absurd hact hc, rfl, rfl, ?_⟩
      simp only [List.forall₂_map_right_iff, List.forall₂_same]
      intro c _
      by_cases hcat : some c.id = s.activeCategoryId
      · rw [if_pos hcat]
        refine ⟨fun hc' => absurd hcat hc', rfl, rfl, ?_⟩
        simp only [List.forall₂_map_right_iff, List.forall₂_same]
        intro l _
        by_cases hlid : l.id = layerId
        · rw [if_pos hlid]
          exact ⟨fun hne => absurd hlid hne, fun _ _ _ => rfl⟩
        · rw [if_neg hlid]
          exact ⟨fun _ => rfl, fun _ _ h3 => absurd h3 hlid⟩
      · rw [if_neg hcat]
        refine ⟨fun _ => rfl, rfl, rfl, ?_⟩
        rw [List.forall₂_same]
        intro l _
        exact ⟨fun _ => rfl, fun _ hcat2 _ => absurd hcat2 hcat⟩
    · rw [if_neg hact]
      refine ⟨fun _ => rfl, rfl, rfl, ?_⟩
      rw [List.forall₂_same]
      intro c _
      refine ⟨fun _ => rfl, rfl, rfl, ?_⟩
      rw [List.forall₂_same]
      intro l _
      exact ⟨fun _ => rfl, fun hact2 _ _ => absurd hact2 hact⟩
  · intro hnone
    show { s with sidebarItems := s.sidebarItems.map _ } = s
    rw [map_self]
    intro it hit
    by_cases hact : some it.id = s.activeSidebarItemId
    · rw [if_pos hact]
      have hcats : it.categories.map (fun cat =>
          if some cat.id = s.activeCategoryId then
            { cat with layers := cat.layers.map (fun l =>
                if l.id = layerId then applyPatch l (resolveUpdates u l) else l) }
          else cat) = it.categories := by
        apply map_self
        intro c hc
        by_cases hcat : some c.id = s.activeCategoryId
        · rw [if_pos hcat]
          have hlays : c.layers.map (fun l =>
              if l.id = layerId then applyPatch l (resolveUpdates u l) else l) =
              c.layers := by
            apply map_self
            intro l hl
            rw [if_neg (hnone it hit hact c hc hcat l hl)]
          rw [hlays]
        · rw [if_neg hcat]
      rw [hcats]
    · rw [if_neg hact]

/-- Concrete run of C10: with an active item and category but no layer of
the requested id under them, `updateLayer` is a complete no-op. -/
theorem claim_C10_update_layer_frame_witness :
    updateLayerUpd "Lx" (Sum.inl { description := some "D" }) appC = appC :=
  (claim_C10_update_layer_frame appC "Lx"
      (Sum.inl { description := some "D" })).2.2.2.2 (by decide)

/-! ## Claim C8 — id uniqueness under duplicateLayer -/

theorem findIdx?_append_first {α : Type} (p : α → Bool) (l1 : List α) (a : α)
    (l2 : List α) (hl1 : ∀ x ∈ l1, p x = false) (ha : p a = true) :
    (l1 ++ a :: l2).findIdx? p = some l1.length := by
  rw [List.findIdx?_append, List.findIdx?_eq_none_iff.mpr hl1]
  simp [List.findIdx?_cons, ha]

theorem insertIdx_append_cons {α : Type} :
    ∀ (l1 : List α) (a b : α) (l2 : List α),
      (l1 ++ a :: l2).insertIdx (l1.length + 1) b = l1 ++ a :: b :: l2
  | [], _, _, _ => rfl
  | x :: l1, a, b, l2 => by
    simp only [List.cons_append, List.length_cons, List.insertIdx_succ_cons]
    rw [insertIdx_append_cons l1 a b l2]

theorem getD_append_length {α : Type} (l1 : List α) (a : α) (l2 : List α) (d : α) :
    (l1 ++ a :: l2).getD l1.length d = a := by
  rw [List.getD_eq_getD_get?, List.get?_append_right (Nat.le_refl _), Nat.sub_self]
  rfl

/-- The items-level shape of a successful `duplicateLayer`: given the
decomposed position of the (uniquely-identified) active item, active
category and target layer, the result splices the clone right after the
original and changes nothing else. -/
theorem duplicateLayer_shape (s : AppState) (fresh : Nat → String)
    (pre post : List SidebarItem) (it : SidebarItem)
    (cpre cpost : List Category) (cat : Category)
    (lpre lpost : List Layer) (orig : Layer)
    (h1 : s.activeSidebarItemId = some it.id)
    (h2 : s.activeCategoryId = some cat.id)
    (h3 : s.sidebarItems = pre ++ it :: post)
    (h4 : ∀ x ∈ pre ++ post, x.id ≠ it.id)
    (h5 : it.categories = cpre ++ cat :: cpost)
    (h6 : ∀ c ∈ cpre ++ cpost, c.id ≠ cat.id)
    (h7 : cat.layers = lpre ++ orig :: lpost)
    (h8 : ∀ l ∈ lpre, l.id ≠ orig.id) :
    (duplicateLayerUpd fresh orig.id s).sidebarItems =
      pre ++ { it with categories := cpre ++
          { cat with layers := lpre ++ orig :: mkClone fresh orig :: lpost } :: cpost }
        :: post := by
  have hcatEq : dupInCat fresh orig.id cat =
      { cat with layers := lpre ++ orig :: mkClone fresh orig :: lpost } := by
    unfold dupInCat
    rw [h7, findIdx?_append_first (fun l => l.id == orig.id) lpre orig lpost
      (fun x hx => beq_eq_false_iff_ne.mpr (h8 x hx)) (by simp)]
    dsimp only
    rw [getD_append_length, insertIdx_append_cons]
  show s.sidebarItems.map (fun item =>
      if some item.id = s.activeSidebarItemId then
        { item with categories := item.categories.map (fun cat2 =>
            if some cat2.id = s.activeCategoryId then dupInCat fresh orig.id cat2
            else cat2) }
      else item) = _
  rw [h3, List.map_append, List.map_cons]
  have hpre : pre.map (fun item =>
      if some item.id = s.activeSidebarItemId then
        { item with categories := item.categories.map (fun cat2 =>
            if some cat2.id = s.activeCategoryId then dupInCat fresh orig.id cat2
            else cat2) }
      else item) = pre := by
    apply map_self
    intro x hx
    have hne : ¬some x.id = s.activeSidebarItemId := by
      rw [h1]
      simp only [Option.some.injEq]
      exact h4 x (List.mem_append_left _ hx)
    rw [if_neg hne]
  have hpost : post.map (fun item =>
      if some item.id = s.activeSidebarItemId then
        { item with categories := item.categories.map (fun cat2 =>
            if some cat2.id = s.activeCategoryId then dupInCat fresh orig.id cat2
            else cat2) }
      else item) = post := by
    apply map_self
    intro x hx
    have hne : ¬some x.id = s.activeSidebarItemId := by
      rw [h1]
      simp only [Option.some.injEq]
      exact h4 x (List.mem_append_right _ hx)
    rw [if_neg hne]
  rw [hpre, hpost, if_pos (show some it.id = s.activeSidebarItemId by rw [h1])]
  rw [h5, List.map_append, List.map_cons]
  have hcpre : cpre.map (fun cat2 =>
      if some cat2.id = s.activeCategoryId then dupInCat fresh orig.id cat2
      else cat2) = cpre := by
    apply map_self
    intro c hc
    have hne : ¬some c.id = s.activeCategoryId := by
      rw [h2]
      simp only [Option.some.injEq]
      exact h6 c (List.mem_append_left _ hc)
    rw [if_neg hne]
  have hcpost : cpost.map (fun cat2 =>
      if some cat2.id = s.activeCategoryId then dupInCat fresh orig.id cat2
      else cat2) = cpost := by
    apply map_self
    intro c hc
    have hne : ¬some c.id = s.activeCategoryId := by
      rw [h2]
      simp only [Option.some.injEq]
      exact h6 c (List.mem_append_right _ hc)
    rw [if_neg hne]
  rw [hcpre, hcpost, if_pos (show some cat.id = s.activeCategoryId by rw [h2]), hcatEq]

theorem perm_append_swap {α : Type} (u w v : List α) :
    List.Perm (u ++ (w ++ v)) (w ++ (u ++ v)) := by
  have e1 : u ++ (w ++ v) = (u ++ w) ++ v := (List.append_assoc u w v).symm
  have e2 : w ++ (u ++ v) = (w ++ u) ++ v := (List.append_assoc w u v).symm
  rw [e1, e2]
  exact List.Perm.append_right v List.perm_append_comm

theorem perm_insert_one_3deep {α : Type} (a x : α) (A B C V : List α) :
    List.Perm (A ++ (B ++ (C ++ (x :: a :: V))))
      (a :: (A ++ (B ++ (C ++ (x :: V))))) := by
  have e1 : A ++ (B ++ (C ++ (x :: a :: V))) =
      (A ++ (B ++ (C ++ [x]))) ++ (a :: V) := by
    simp [List.append_assoc]
  have e2 : A ++ (B ++ (C ++ (x :: V))) = (A ++ (B ++ (C ++ [x]))) ++ V := by
    simp [List.append_assoc]
  rw [e1, e2]
  exact List.perm_middle

theorem perm_insert_list_4deep {α : Type} (W A B C D V : List α) :
    List.Perm (A ++ (B ++ (C ++ (D ++ (W ++ V)))))
      (W ++ (A ++ (B ++ (C ++ (D ++ V))))) := by
  have e1 : A ++ (B ++ (C ++ (D ++ (W ++ V)))) =
      (A ++ (B ++ (C ++ D))) ++ (W ++ V) := by simp [List.append_assoc]
  have e2 : A ++ (B ++ (C ++ (D ++ V))) = (A ++ (B ++ (C ++ D))) ++ V := by
    simp [List.append_assoc]
  rw [e1, e2]
  exact perm_append_swap _ _ _

/-- C8 as stated is false: duplicating a layer copies the row (and column
and cell) ids of its tables, so afterwards two distinct Row entities — one
in the original table, one in the duplicated table — share the id "r1". -/
theorem claim_C8_counterexample :
    rowIdsOfState (duplicateLayerUpd freshIds "L1" appC) = ["r1", "r1"] ∧
      ¬(rowIdsOfState (duplicateLayerUpd freshIds "L1" appC)).Nodup := by
  constructor
  · decide
  · decide

/-- C8 amended: `duplicateLayer` splices in, right after the original, a
clone carrying a fresh layer id (`fresh 0`) and fresh table ids
(`fresh (i+1)` per table) while keeping every table's title, columns and
rows — hence the row, column and cell ids — identical to the original's;
consequently layer-kind and table-kind id uniqueness are preserved
(provided the generated ids are new and mutually distinct), but
row/column/cell ids are duplicated whenever the layer has a table with a
row, column or cell, so global per-kind uniqueness fails for those
kinds. -/
theorem claim_C8_duplicate_ids (s : AppState) (fresh : Nat → String)
    (pre post : List SidebarItem) (it : SidebarItem)
    (cpre cpost : List Category) (cat : Category)
    (lpre lpost : List Layer) (orig : Layer)
    (h1 : s.activeSidebarItemId = some it.id)
    (h2 : s.activeCategoryId = some cat.id)
    (h3 : s.sidebarItems = pre ++ it :: post)
    (h4 : ∀ x ∈ pre ++ post, x.id ≠ it.id)
    (h5 : it.categories = cpre ++ cat :: cpost)
    (h6 : ∀ c ∈ cpre ++ cpost, c.id ≠ cat.id)
    (h7 : cat.layers = lpre ++ orig :: lpost)
    (h8 : ∀ l ∈ lpre, l.id ≠ orig.id) :
    ((duplicateLayerUpd fresh orig.id s).sidebarItems =
        pre ++ { it with categories := cpre ++
            { cat with layers := lpre ++ orig :: mkClone fresh orig :: lpost }
              :: cpost } :: post) ∧
      (mkClone fresh orig).id = fresh 0 ∧
      (mkClone fresh orig).title = orig.title ++ " (copy)" ∧
      (mkClone fresh orig).tables.map (fun t => t.id) =
        (List.range orig.tables.length).map (fun n => fresh (n + 1)) ∧
      (mkClone fresh orig).tables.map (fun t => (t.title, t.columns, t.rows)) =
        orig.tables.map (fun t => (t.title, t.columns, t.rows)) ∧
      ((layerIdsOfState s).Nodup → fresh 0 ∉ layerIdsOfState s →
        (layerIdsOfState (duplicateLayerUpd fresh orig.id s)).Nodup) ∧
      ((tableIdsOfState s).Nodup → (∀ n, fresh n ∉ tableIdsOfState s) →
        Function.Injective fresh →
        (tableIdsOfState (duplicateLayerUpd fresh orig.id s)).Nodup) := by
  have hshape := duplicateLayer_shape s fresh pre post it cpre cpost cat lpre lpost
    orig h1 h2 h3 h4 h5 h6 h7 h8
  have hCloneIds : (mkClone fresh orig).tables.map (fun t => t.id) =
      (List.range orig.tables.length).map (fun n => fresh (n + 1)) := by
    unfold mkClone
    dsimp only
    rw [List.map_map]
    rw [show ((fun t : TableData => t.id) ∘
        (fun p : Nat × TableData => ({ p.2 with id := fresh (p.1 + 1) } : TableData))) =
        ((fun n : Nat => fresh (n + 1)) ∘ Prod.fst) from rfl]
    rw [← List.map_map, List.enum_map_fst]
  have hContent : (mkClone fresh orig).tables.map (fun t => (t.title, t.columns, t.rows)) =
      orig.tables.map (fun t => (t.title, t.columns, t.rows)) := by
    unfold mkClone
    dsimp only
    rw [List.map_map]
    rw [show ((fun t : TableData => (t.title, t.columns, t.rows)) ∘
        (fun p : Nat × TableData => ({ p.2 with id := fresh (p.1 + 1) } : TableData))) =
        ((fun t : TableData => (t.title, t.columns, t.rows)) ∘ Prod.snd) from rfl]
    rw [← List.map_map, List.enum_map_snd]
  refine ⟨hshape, rfl, rfl, hCloneIds, hContent, ?_, ?_⟩
  · intro hnd hnotin
    have hperm : List.Perm (layerIdsOfState (duplicateLayerUpd fresh orig.id s))
        (fresh 0 :: layerIdsOfState s) := by
      unfold layerIdsOfState
      rw [hshape, h3]
      simp only [List.flatMap_append, List.flatMap_cons, h5, h7, List.map_append,
        List.map_cons, List.append_assoc, List.cons_append, mkClone]
      exact perm_insert_one_3deep _ _ _ _ _ _
    rw [hperm.nodup_iff]
    exact List.nodup_cons.mpr ⟨hnotin, hnd⟩
  · intro hnd hnotin hinj
    have hperm : List.Perm (tableIdsOfState (duplicateLayerUpd fresh orig.id s))
        ((mkClone fresh orig).tables.map (fun t => t.id) ++ tableIdsOfState s) := by
      unfold tableIdsOfState
      rw [hshape, h3]
      simp only [List.flatMap_append, List.flatMap_cons, h5, h7, List.append_assoc]
      exact perm_insert_list_4deep _ _ _ _ _ _
    rw [hperm.nodup_iff, List.nodup_append]
    have hfinj : Function.Injective (fun n : Nat => fresh (n + 1)) := by
      intro a b hab
      have := hinj hab
      omega
    refine ⟨?_, hnd, ?_⟩
    · rw [hCloneIds]
      exact (List.nodup_range _).map hfinj
    · intro a ha hb
      rw [hCloneIds] at ha
      rcases List.mem_map.mp ha with ⟨n, _, hfn⟩
      exact hnotin (n + 1) (hfn ▸ hb)

/-- Concrete run of C8 (amended): duplicating the only layer of `appC`
keeps layer-id uniqueness (the clone id is fresh) even though — per the
counterexample — row ids get duplicated. -/
theorem claim_C8_duplicate_ids_witness :
    (layerIdsOfState (duplicateLayerUpd freshIds sampleLayer.id appC)).Nodup :=
  (claim_C8_duplicate_ids appC freshIds [] [] sampleItem [] []
      ⟨"c1", "Cat", [sampleLayer]⟩ [] [] sampleLayer
      (by decide) (by decide) (by decide) (by decide) (by decide) (by decide)
      (by decide) (by decide)).2.2.2.2.2.1 (by decide) (by decide)

/-! ## Claim C3 — migration of legacy tableData layers -/

theorem map_range'_append (g : Nat → String) :
    ∀ (m : Nat) (s n : Nat),
      (List.range' s m).map g ++ (List.range' (s + m) n).map g =
        (List.range' s (m + n)).map g
  | 0, s, n => by simp
  | m + 1, s, n => by
    rw [List.range'_succ, List.map_cons, List.cons_append,
      show s + (m + 1) = (s + 1) + m from by omega,
      map_range'_append g m (s + 1) n,
      show m + 1 + n = (m + n) + 1 from by omega,
      List.range'_succ, List.map_cons]

theorem migrateLayers_spec (supply : Nat → String) :
    ∀ (ls : List LegacyLayer) (c : Nat),
      List.Forall₂ (MigLayerRel supply) ls (migrateLayers supply c ls).1 ∧
      ∃ k, (migrateLayers supply c ls).2 = c + k ∧
        newTableIdsLayers ls (migrateLayers supply c ls).1 =
          (List.range' c k).map supply
  | [], c => ⟨List.Forall₂.nil, 0, rfl, rfl⟩
  | l :: ls, c => by
    rcases htd : l.tableData with _ | td <;> rcases htb : l.tables with _ | ts
    · -- no tableData, no tables: empty tables array
      have hml : migrateLayer supply c l =
          (⟨l.id, l.title, l.description, l.x, l.y, l.width, l.height, []⟩, c) := by
        unfold migrateLayer
        rw [htd, htb]
      obtain ⟨hfa, k, hk, hids⟩ := migrateLayers_spec supply ls c
      refine ⟨?_, k, ?_, ?_⟩
      · simp only [migrateLayers, hml]
        refine List.Forall₂.cons ?_ hfa
        refine ⟨rfl, rfl, rfl, rfl, rfl, rfl, rfl, ?_, fun _ _ => rfl, ?_⟩
        · intro td2 htd2 _
          rw [htd] at htd2
          exact absurd htd2 (by simp)
        · intro ts2 hts2
          rw [htb] at hts2
          exact absurd hts2 (by simp)
      · simp only [migrateLayers, hml]
        exact hk
      · simp only [migrateLayers, hml, newTableIdsLayers, htd, htb]
        exact hids
    · -- no tableData, tables present: pass through
      have hml : migrateLayer supply c l =
          (⟨l.id, l.title, l.description, l.x, l.y, l.width, l.height, ts⟩, c) := by
        unfold migrateLayer
        rw [htd, htb]
      obtain ⟨hfa, k, hk, hids⟩ := migrateLayers_spec supply ls c
      refine ⟨?_, k, ?_, ?_⟩
      · simp only [migrateLayers, hml]
        refine List.Forall₂.cons ?_ hfa
        refine ⟨rfl, rfl, rfl, rfl, rfl, rfl, rfl, ?_, ?_, ?_⟩
        · intro td2 htd2 _
          rw [htd] at htd2
          exact absurd htd2 (by simp)
        · intro _ htb2
          rw [htb] at htb2
          exact absurd htb2 (by simp)
        · intro ts2 hts2
          rw [htb] at hts2
          have hts3 : ts = ts2 := by simpa using hts2
          rw [← hts3]
      · simp only [migrateLayers, hml]
        exact hk
      · simp only [migrateLayers, hml, newTableIdsLayers, htd, htb]
        exact hids
    · -- tableData present, no tables: wrap as a fresh one-element array
      have hml : migrateLayer supply c l =
          (⟨l.id, l.title, l.description, l.x, l.y, l.width, l.height,
            [⟨supply c, "Table 1", td.columns, td.rows⟩]⟩, c + 1) := by
        unfold migrateLayer
        rw [htd, htb]
      obtain ⟨hfa, k, hk, hids⟩ := migrateLayers_spec supply ls (c + 1)
      refine ⟨?_, k + 1, ?_, ?_⟩
      · simp only [migrateLayers, hml]
        refine List.Forall₂.cons ?_ hfa
        refine ⟨rfl, rfl, rfl, rfl, rfl, rfl, rfl, ?_, ?_, ?_⟩
        · intro td2 htd2 _
          rw [htd] at htd2
          have htd3 : td = td2 := by simpa using htd2
          exact ⟨c, by rw [← htd3]⟩
        · intro htd2 _
          rw [htd] at htd2
          exact absurd htd2 (by simp)
        · intro ts2 hts2
          rw [htb] at hts2
          exact absurd hts2 (by simp)
      · simp only [migrateLayers, hml]
        rw [hk]
        omega
      · simp only [migrateLayers, hml, newTableIdsLayers, htd, htb, List.map_cons,
          List.map_nil]
        rw [hids, List.range'_succ, List.map_cons]
        rfl
    · -- both present: pass through (the tables array wins)
      have hml : migrateLayer supply c l =
          (⟨l.id, l.title, l.description, l.x, l.y, l.width, l.height, ts⟩, c) := by
        unfold migrateLayer
        rw [htd, htb]
      obtain ⟨hfa, k, hk, hids⟩ := migrateLayers_spec supply ls c
      refine ⟨?_, k, ?_, ?_⟩
      · simp only [migrateLayers, hml]
        refine List.Forall₂.cons ?_ hfa
        refine ⟨rfl, rfl, rfl, rfl, rfl, rfl, rfl, ?_, ?_, ?_⟩
        · intro td2 _ htb2
          rw [htb] at htb2
          exact absurd htb2 (by simp)
        · intro htd2 _
          rw [htd] at htd2
          exact absurd htd2 (by simp)
        · intro ts2 hts2
          rw [htb] at hts2
          have hts3 : ts = ts2 := by simpa using hts2
          rw [← hts3]
      · simp only [migrateLayers, hml]
        exact hk
      · simp only [migrateLayers, hml, newTableIdsLayers, htd, htb]
        exact hids

theorem migrateCategories_spec (supply : Nat → String) :
    ∀ (cs : List LegacyCategory) (c : Nat),
      List.Forall₂ (MigCatRel supply) cs (migrateCategories supply c cs).1 ∧
      ∃ k, (migrateCategories supply c cs).2 = c + k ∧
        newTableIdsCategories cs (migrateCategories supply c cs).1 =
          (List.range' c k).map supply
  | [], c => ⟨List.Forall₂.nil, 0, rfl, rfl⟩
  | cat :: cs, c => by
    obtain ⟨hfa1, k1, hk1, hids1⟩ := migrateLayers_spec supply cat.layers c
    obtain ⟨hfa2, k2, hk2, hids2⟩ :=
      migrateCategories_spec supply cs (migrateLayers supply c cat.layers).2
    refine ⟨?_, k1 + k2, ?_, ?_⟩
    · simp only [migrateCategories]
      exact List.Forall₂.cons ⟨rfl, rfl, hfa1⟩ hfa2
    · simp only [migrateCategories]
      rw [hk2, hk1]
      omega
    · simp only [migrateCategories, newTableIdsCategories]
      rw [hids1, hids2, hk1, map_range'_append]
  termination_by cs _ => cs.length

theorem migrateItems_spec (supply : Nat → String) :
    ∀ (its : List LegacySidebarItem) (c : Nat),
      List.Forall₂ (MigItemRel supply) its (migrateItems supply c its).1 ∧
      ∃ k, (migrateItems supply c its).2 = c + k ∧
        newTableIdsItems its (migrateItems supply c its).1 =
          (List.range' c k).map supply
  | [], c => ⟨List.Forall₂.nil, 0, rfl, rfl⟩
  | it :: its, c => by
    obtain ⟨hfa1, k1, hk1, hids1⟩ := migrateCategories_spec supply it.categories c
    obtain ⟨hfa2, k2, hk2, hids2⟩ :=
      migrateItems_spec supply its (migrateCategories supply c it.categories).2
    refine ⟨?_, k1 + k2, ?_, ?_⟩
    · simp only [migrateItems]
      exact List.Forall₂.cons ⟨rfl, rfl, hfa1⟩ hfa2
    · simp only [migrateItems]
      rw [hk2, hk1]
      omega
    · simp only [migrateItems, newTableIdsItems]
      rw [hids1, hids2, hk1, map_range'_append]
  termination_by its _ => its.length

/-- C3: migration preserves the title and active selection; each layer
with a legacy inline `tableData` and no `tables` becomes a layer whose
tables array is exactly one table holding the original columns and rows,
with a supplied fresh id and title "Table 1"; a layer with neither field
gets an empty tables array; a layer already carrying `tables` passes
through with all its fields unchanged.  The ids consumed are the supply
at `0, 1, 2, …` in traversal order, so they are pairwise distinct for an
injective (collision-free) supply. -/
theorem claim_C3_migrate_state (supply : Nat → String) (s : LegacyAppState) :
    (migrateState supply s).projectTitle = s.projectTitle ∧
      (migrateState supply s).activeSidebarItemId = s.activeSidebarItemId ∧
      (migrateState supply s).activeCategoryId = s.activeCategoryId ∧
      List.Forall₂ (MigItemRel supply) s.sidebarItems
        (migrateState supply s).sidebarItems ∧
      ∃ k, newTableIdsItems s.sidebarItems (migrateState supply s).sidebarItems =
          (List.range k).map supply ∧
        (Function.Injective supply →
          (newTableIdsItems s.sidebarItems
            (migrateState supply s).sidebarItems).Nodup) := by
  obtain ⟨hfa, k, _, hids⟩ := migrateItems_spec supply s.sidebarItems 0
  refine ⟨rfl, rfl, rfl, hfa, k, ?_, ?_⟩
  · show newTableIdsItems s.sidebarItems (migrateItems supply 0 s.sidebarItems).1 = _
    rw [hids, List.range_eq_range']
  · intro hinj
    show (newTableIdsItems s.sidebarItems
      (migrateItems supply 0 s.sidebarItems).1).Nodup
    rw [hids]
    have hr : (List.range' 0 k).Nodup := List.nodup_range' 0 k 1 (by omega)
    exact hr.map hinj

/-- Concrete run of C3: migrating `legacySample` (two legacy `tableData`
layers, one bare, one current) under the injective unary supply yields
pairwise distinct fresh table ids. -/
theorem claim_C3_migrate_state_witness :
    (newTableIdsItems legacySample.sidebarItems
      (migrateState unarySupply legacySample).sidebarItems).Nodup := by
  obtain ⟨k, _, hnd⟩ := (claim_C3_migrate_state unarySupply legacySample).2.2.2.2
  refine hnd ?_
  intro a b hab
  unfold unarySupply at hab
  have h2 : List.replicate a 'a' = List.replicate b 'a' := by injection hab
  have h3 := congrArg List.length h2
  simpa using h3

end Gridwell
